import Mathlib

/-!
Verification of the thumbnail generation and caching subsystem of the
daidori-manager Tauri application (Rust sources under `src/src-tauri/src`).

The development shallowly embeds the relevant Rust functions as executable
Lean definitions:

* `validate_dimensions` — `src/src-tauri/src/image_utils.rs`
* `extract_psd_embedded_thumbnail` — `src/src-tauri/src/thumbnail/psd.rs`
  (binary scanner over a PSD byte buffer; the `std::io::Cursor` is modelled
  as an explicit `Nat` position, with every `read_exact` a bounds-checked
  operation and every forward `seek` a plain position increment, which is
  exact for `Cursor<&[u8]>` since seeking past the end succeeds there)
* `ThumbnailMemoryCache` with `get`/`insert` — `src/src-tauri/src/cache/memory.rs`
  (the `HashMap` is modelled as a key-unique association list, the
  `VecDeque` recency order as a `List` with its front at the head)
* the MD5 key fingerprint (`md5::compute` + `format "{:x}"`) — implemented
  in full (RFC 1321) over byte lists; strings are taken to their code
  points, which coincides with the UTF-8 bytes for the ASCII inputs used
* `generate_psd_thumbnail`, `generate_image_thumbnail`, `create_thumbnail`
  and the `generate_thumbnail` command — `src/src-tauri/src/thumbnail/*.rs`,
  with the external image library calls (JPEG/raster decode, PSD composite
  parse, resize, PNG encode) abstracted as oracle function parameters and
  the filesystem as an explicit map from path strings to byte lists.

Machine integers are `Nat` with explicit `% 2 ^ 32` where 32-bit overflow
matters (MD5); the extractor's `u64` cursor arithmetic cannot overflow for
any real buffer, and is modelled as unbounded `Nat`.
-/

deriving instance DecidableEq for Except

namespace Daidori

/-! ### Constants (src/src-tauri/src/constants.rs) -/

def THUMBNAIL_SIZE : Nat := 480

def MAX_IMAGE_DIMENSION : Nat := 65535

def MAX_PIXEL_COUNT : Nat := 100000000

def MEMORY_CACHE_MAX_SIZE : Nat := 20

/-! ### Dimension validator (src/src-tauri/src/image_utils.rs, validate_dimensions) -/

def validate_dimensions (width height : Nat) : Except String Unit :=
  if width = 0 ∨ height = 0 then
    .error "無効な画像サイズ: 幅または高さが0"
  else if MAX_IMAGE_DIMENSION < width ∨ MAX_IMAGE_DIMENSION < height then
    .error ("画像サイズが大きすぎます: " ++ Nat.repr width ++ "x" ++ Nat.repr height
      ++ " (最大: " ++ Nat.repr MAX_IMAGE_DIMENSION ++ ")")
  else if MAX_PIXEL_COUNT < width * height then
    .error ("ピクセル数が多すぎます: " ++ Nat.repr (width * height)
      ++ " (最大: " ++ Nat.repr MAX_PIXEL_COUNT ++ ")")
  else
    .ok ()

/-- Boolean success observer for `validate_dimensions`. -/
def validateOk (width height : Nat) : Bool :=
  match validate_dimensions width height with
  | .ok _ => true
  | .error _ => false

/-! ### Embedded-preview extractor (src/src-tauri/src/thumbnail/psd.rs, extract_psd_embedded_thumbnail)

The `Cursor<&[u8]>` is modelled as a `Nat` position over a `List Nat` of
bytes. `read_exact` is bounds-checked and fails (`none`) when fewer bytes
remain; a forward `seek` always succeeds and is a plain addition, exactly
as for `std::io::Cursor` (seeking past the end of the slice is allowed
there and only later reads fail). Inside the resource loop, `break` and
the early `return None` exits are both mapped to the outcome `stop`,
because after `break` the function immediately returns `None` as well. -/

/-- Big-endian integer value of a byte list (`u32::from_be_bytes` /
`u16::from_be_bytes` for 4- and 2-byte lists). -/
def be (bs : List Nat) : Nat := bs.foldl (fun a b => a * 256 + b) 0

/-- Bounds-checked exact read of `k` bytes at `pos` (`Cursor::read_exact`). -/
def readExact (data : List Nat) (pos k : Nat) : Option (List Nat) :=
  if pos + k ≤ data.length then some ((data.drop pos).take k) else none

/-- The bytes of the PSD signature "8BPS". -/
def psdSig : List Nat := [56, 66, 80, 83]

/-- The bytes of the resource-record signature "8BIM". -/
def bimSig : List Nat := [56, 66, 73, 77]

/-- Outcome of one iteration of the resource-scanning `while` loop:
a thumbnail payload was found and returned, the scan stopped (covers both
`break` and the early `return None` paths, which make the function return
`None` alike), or the cursor moved to `pos` for the next iteration. -/
inductive StepOutcome where
  | found (jpeg : List Nat)
  | stop
  | next (pos : Nat)
deriving DecidableEq

/-- One iteration of the resource loop body, starting at the "8BIM"
signature read and ending at the even-aligned skip past the record. -/
def scanStep (data : List Nat) (pos : Nat) : StepOutcome :=
  match readExact data pos 4 with
  | none => .stop
  | some rsig =>
    if rsig ≠ bimSig then .stop
    else
      match readExact data (pos + 4) 2 with
      | none => .stop
      | some idb =>
        let resource_id := be idb
        match readExact data (pos + 6) 1 with
        | none => .stop
        | some nlb =>
          let name_len := be nlb
          let skip_len := if name_len % 2 = 0 then name_len + 1 else name_len
          let pos3 := pos + 7 + skip_len
          match readExact data pos3 4 with
          | none => .stop
          | some szb =>
            let resource_size := be szb
            let pos4 := pos3 + 4
            let padded := if resource_size % 2 = 0 then resource_size
              else resource_size + 1
            if resource_id = 1036 ∨ resource_id = 1033 then
              match readExact data pos4 28 with
              | none => .stop
              | some header =>
                let fmt := be (header.take 4)
                let pos5 := pos4 + 28
                if fmt = 1 then
                  if resource_size < 28 then .stop
                  else
                    let jpeg_size := resource_size - 28
                    if jpeg_size = 0 then .stop
                    else
                      match readExact data pos5 jpeg_size with
                      | none => .stop
                      | some jpeg => .found jpeg
                else .next (pos5 + padded)
            else .next (pos4 + padded)

/-- The resource-scanning `while` loop. The fuel argument is structural
bookkeeping only: the top-level call passes `resources_end - pos`, which
the loop can never exhaust because every `next` outcome that is followed
(the guard `pos2 ≤ pos` mirrors `cursor.position() <= loop_start_pos`)
strictly advances the position; `scanResources_fuel_irrelevant` makes this
exact. -/
def scanResources (data : List Nat) (resourcesEnd : Nat) :
    Nat → Nat → Option (List Nat)
  | 0, _ => none
  | fuel + 1, pos =>
    if pos < resourcesEnd then
      match scanStep data pos with
      | .found j => some j
      | .stop => none
      | .next pos2 =>
        if pos2 ≤ pos then none
        else scanResources data resourcesEnd fuel pos2
    else none

/-- `extract_psd_embedded_thumbnail` from src/src-tauri/src/thumbnail/psd.rs:
check the "8BPS" signature, skip the 22-byte fixed header, skip the
length-prefixed color mode data section, then scan the image resources
section for a JPEG thumbnail resource (id 1036 or 1033, format code 1). -/
def extract_psd_embedded_thumbnail (data : List Nat) : Option (List Nat) :=
  match readExact data 0 4 with
  | none => none
  | some sig =>
    if sig ≠ psdSig then none
    else
      match readExact data 26 4 with
      | none => none
      | some cmb =>
        let color_mode_len := be cmb
        let pos2 := 30 + color_mode_len
        match readExact data pos2 4 with
        | none => none
        | some rlb =>
          let resources_len := be rlb
          let resources_end := pos2 + 4 + resources_len
          scanResources data resources_end resources_len (pos2 + 4)

/-! ### Memory cache (src/src-tauri/src/cache/memory.rs, ThumbnailMemoryCache)

The `HashMap<String, String>` is modelled as a key-unique association
list (`cache`), the `VecDeque<String>` recency order as a list (`order`)
whose head is the front (least recently used). `VecDeque::retain` is
`List.filter`, `push_back` appends, `pop_front` takes the head. -/

structure ThumbnailMemoryCache where
  cache : List (String × String)
  order : List String
  max_size : Nat
deriving DecidableEq

/-- The closure `|kv| kv.0 != key` used to drop a key from the map model. -/
def keyNe (x : String) (kv : String × String) : Bool := kv.1 ≠ x

/-- The closure `|k| k != key` used by `VecDeque::retain`. -/
def strNe (x : String) (k : String) : Bool := k ≠ x

/-- `HashMap::get` on the association-list model. -/
def mapLookup (k : String) : List (String × String) → Option String
  | [] => none
  | (k2, v) :: rest => if k2 = k then some v else mapLookup k rest

/-- `HashMap::insert` on the association-list model: replaces any entry
with the same key. -/
def mapInsert (k v : String) (m : List (String × String)) :
    List (String × String) :=
  (k, v) :: m.filter (keyNe k)

/-- `HashMap::remove` on the association-list model. -/
def mapRemove (k : String) (m : List (String × String)) :
    List (String × String) :=
  m.filter (keyNe k)

/-- `ThumbnailMemoryCache::new`. -/
def ThumbnailMemoryCache.new (max_size : Nat) : ThumbnailMemoryCache :=
  { cache := [], order := [], max_size := max_size }

/-- `ThumbnailMemoryCache::get`: on a hit, move the key to the
most-recently-used end of the order and return a copy of the value. -/
def ThumbnailMemoryCache.get (c : ThumbnailMemoryCache) (key : String) :
    Option String × ThumbnailMemoryCache :=
  match mapLookup key c.cache with
  | some value =>
    (some value,
      { c with order := c.order.filter (strNe key) ++ [key] })
  | none => (none, c)

/-- `ThumbnailMemoryCache::insert`: refresh an existing key, or evict the
least-recently-used entry when a new key arrives at capacity; then append
the key as most-recently-used and store the value. -/
def ThumbnailMemoryCache.insert (c : ThumbnailMemoryCache)
    (key value : String) : ThumbnailMemoryCache :=
  let c1 :=
    if (mapLookup key c.cache).isSome then
      { c with order := c.order.filter (strNe key) }
    else if c.max_size ≤ c.cache.length then
      match c.order with
      | [] => c
      | oldest :: rest =>
        { c with order := rest, cache := mapRemove oldest c.cache }
    else c
  { c1 with order := c1.order ++ [key], cache := mapInsert key value c1.cache }

/-- One externally reachable operation on the memory cache. -/
inductive McOp where
  | get (key : String)
  | ins (key value : String)

/-- Apply one operation, keeping only the state. -/
def mcApply (c : ThumbnailMemoryCache) : McOp → ThumbnailMemoryCache
  | .get key => (c.get key).2
  | .ins key value => c.insert key value

/-- Apply a sequence of operations from left to right. -/
def mcRun (c : ThumbnailMemoryCache) (ops : List McOp) : ThumbnailMemoryCache :=
  ops.foldl mcApply c

/-- Membership observer: is the key currently stored? -/
def mcContains (c : ThumbnailMemoryCache) (key : String) : Bool :=
  (mapLookup key c.cache).isSome

/-- Structural well-formedness of a cache state: the recency order has no
duplicates, the mapping has no duplicate keys, and both hold exactly the
same key set. -/
def McWf (c : ThumbnailMemoryCache) : Prop :=
  c.order.Nodup ∧ (c.cache.map Prod.fst).Nodup ∧
    (∀ k, k ∈ c.order ↔ (mapLookup k c.cache).isSome)

/-! ### MD5 (RFC 1321), as computed by the `md5` crate for the cache key

`md5::compute(input)` followed by `format "{:x}"` produces the 32
lowercase hex characters of the 16-byte digest. The implementation below
is the standard algorithm over byte lists; 32-bit words are `Nat` reduced
`% 2 ^ 32` at every addition and rotation. -/

/-- The per-round left-rotation amounts. -/
def md5S : List Nat :=
  [7, 12, 17, 22, 7, 12, 17, 22, 7, 12, 17, 22, 7, 12, 17, 22,
   5, 9, 14, 20, 5, 9, 14, 20, 5, 9, 14, 20, 5, 9, 14, 20,
   4, 11, 16, 23, 4, 11, 16, 23, 4, 11, 16, 23, 4, 11, 16, 23,
   6, 10, 15, 21, 6, 10, 15, 21, 6, 10, 15, 21, 6, 10, 15, 21]

/-- The sine-derived round constants. -/
def md5K : List Nat :=
  [3614090360, 3905402710, 606105819, 3250441966,
   4118548399, 1200080426, 2821735955, 4249261313,
   1770035416, 2336552879, 4294925233, 2304563134,
   1804603682, 4254626195, 2792965006, 1236535329,
   4129170786, 3225465664, 643717713, 3921069994,
   3593408605, 38016083, 3634488961, 3889429448,
   568446438, 3275163606, 4107603335, 1163531501,
   2850285829, 4243563512, 1735328473, 2368359562,
   4294588738, 2272392833, 1839030562, 4259657740,
   2763975236, 1272893353, 4139469664, 3200236656,
   681279174, 3936430074, 3572445317, 76029189,
   3654602809, 3873151461, 530742520, 3299628645,
   4096336452, 1126891415, 2878612391, 4237533241,
   1700485571, 2399980690, 4293915773, 2240044497,
   1873313359, 4264355552, 2734768916, 1309151649,
   4149444226, 3174756917, 718787259, 3951481745]

/-- 32-bit wrapping addition. -/
def wadd (a b : Nat) : Nat := (a + b) % 4294967296

/-- 32-bit left rotation. -/
def rotl32 (x s : Nat) : Nat :=
  ((x <<< s) ||| (x >>> (32 - s))) % 4294967296

/-- The four bytes of a 32-bit word, little-endian. -/
def leBytes4 (x : Nat) : List Nat :=
  [x % 256, x / 256 % 256, x / 65536 % 256, x / 16777216 % 256]

/-- The eight bytes of a 64-bit word, little-endian. -/
def leBytes8 (x : Nat) : List Nat :=
  leBytes4 (x % 4294967296) ++ leBytes4 (x / 4294967296)

/-- MD5 padding: a 0x80 byte, zeros to 56 mod 64, and the bit length as a
little-endian `u64`. -/
def md5Pad (msg : List Nat) : List Nat :=
  msg ++ [128] ++ List.replicate ((120 - (msg.length + 1) % 64) % 64) 0 ++
    leBytes8 (msg.length * 8 % 18446744073709551616)

/-- Little-endian word value of a 4-byte group. -/
def leWord (bs : List Nat) : Nat := bs.foldr (fun b acc => acc * 256 + b) 0

/-- A 64-byte block as 16 little-endian words. -/
def toWords : List Nat → List Nat
  | b0 :: b1 :: b2 :: b3 :: rest => leWord [b0, b1, b2, b3] :: toWords rest
  | _ => []

/-- The round mixing function (F, G, H, I by round quarter). -/
def md5F (i x y z : Nat) : Nat :=
  if i < 16 then (x &&& y) ||| ((x ^^^ 4294967295) &&& z)
  else if i < 32 then (z &&& x) ||| ((z ^^^ 4294967295) &&& y)
  else if i < 48 then x ^^^ y ^^^ z
  else y ^^^ (x ||| (z ^^^ 4294967295))

/-- The message-word index used by round `i`. -/
def md5g (i : Nat) : Nat :=
  if i < 16 then i
  else if i < 32 then (5 * i + 1) % 16
  else if i < 48 then (3 * i + 5) % 16
  else (7 * i) % 16

/-- One of the 64 rounds over the running `(a, b, c, d)` state. -/
def md5Round (M : List Nat) (st : Nat × Nat × Nat × Nat) (i : Nat) :
    Nat × Nat × Nat × Nat :=
  let a := st.1
  let b := st.2.1
  let c := st.2.2.1
  let d := st.2.2.2
  let f := wadd (wadd (wadd (md5F i b c d) a) (md5K.getD i 0))
    (M.getD (md5g i) 0)
  (d, wadd b (rotl32 f (md5S.getD i 0)), b, c)

/-- Process one 64-byte block. -/
def md5Block (st : Nat × Nat × Nat × Nat) (block : List Nat) :
    Nat × Nat × Nat × Nat :=
  let M := toWords block
  let r := (List.range 64).foldl (md5Round M) st
  (wadd st.1 r.1, wadd st.2.1 r.2.1, wadd st.2.2.1 r.2.2.1,
    wadd st.2.2.2 r.2.2.2)

/-- Process `n` consecutive 64-byte blocks. -/
def md5Blocks : (Nat × Nat × Nat × Nat) → Nat → List Nat →
    Nat × Nat × Nat × Nat
  | st, 0, _ => st
  | st, n + 1, msg => md5Blocks (md5Block st (msg.take 64)) n (msg.drop 64)

/-- The 16-byte MD5 digest of a byte list. -/
def md5Bytes (msg : List Nat) : List Nat :=
  let p := md5Pad msg
  let r := md5Blocks (1732584193, 4023233417, 2562383102, 271733878)
    (p.length / 64) p
  leBytes4 r.1 ++ leBytes4 r.2.1 ++ leBytes4 r.2.2.1 ++ leBytes4 r.2.2.2

/-- Two lowercase hex characters of a byte. -/
def byteHex (b : Nat) : List Char := [Nat.digitChar (b / 16), Nat.digitChar (b % 16)]

/-- The `format "{:x}"` rendering of an MD5 digest: 32 lowercase hex
characters. -/
def md5hex (msg : List Nat) : String :=
  String.mk (((md5Bytes msg).map byteHex).flatten)

/-- The bytes of a string (code points; identical to the UTF-8 bytes for
the ASCII strings involved in cache keys). -/
def strBytes (s : String) : List Nat := s.data.map Char.toNat

/-! ### Cache key derivation (src/src-tauri/src/thumbnail/mod.rs, lines 36-37)

`format!("{}:{}:{}:png", file_path, modified_time, THUMBNAIL_SIZE)` then
`format!("{:x}", md5::compute(&input))`. The third slot holds the render
size; the fourth slot, where a render quality would go, is the fixed
literal "png" — the render quality is not an input of the derivation.
(The older monolithic lib.rs variant hashes
`"{path}:{mtime}:{960}:{98}"` instead, placing its JPEG quality constant
in that slot.) -/

def cacheKeyInput (file_path : String) (modified_time renderSize : Nat) :
    String :=
  file_path ++ ":" ++ Nat.repr modified_time ++ ":" ++ Nat.repr renderSize
    ++ ":png"

/-- The cache key as a function of the four request fields named by the
specification; the derivation of thumbnail/mod.rs ignores
`renderQuality`. -/
def deriveKey (sourcePath : String)
    (modifiedTimestamp renderSize renderQuality : Nat) : String :=
  md5hex (strBytes (cacheKeyInput sourcePath modifiedTimestamp renderSize))

/-- The key `generate_thumbnail` actually computes
(renderSize = THUMBNAIL_SIZE). -/
def cache_key (file_path : String) (modified_time : Nat) : String :=
  md5hex (strBytes (cacheKeyInput file_path modified_time THUMBNAIL_SIZE))

/-! ### Extension extraction (`Path::extension` + `to_lowercase`)

`path.extension().and_then(|e| e.to_str()).unwrap_or("").to_lowercase()`:
the file name is the part after the last separator (trailing separators
ignored); the extension is the part after the last dot, none when there
is no dot or the only dot starts the file name; a missing extension
collapses to "". Lowercasing is ASCII here; Unicode lowercasing agrees on
every string that can reach the supported-extension set. -/

def extChars (p : String) : List Char :=
  let rev := p.data.reverse
  let base_rev := (rev.dropWhile (fun c => c = '/')).takeWhile
    (fun c => c ≠ '/')
  let after_dot := base_rev.takeWhile (fun c => c ≠ '.')
  match base_rev.dropWhile (fun c => c ≠ '.') with
  | [] => []
  | _ :: before => if before = [] then [] else after_dot.reverse

/-- The lowercased extension string used for dispatch. -/
def extLower (p : String) : String :=
  String.mk ((extChars p).map Char.toLower)

/-- The supported extensions (`SUPPORTED_EXTENSIONS` of constants.rs). -/
def SUPPORTED_EXTENSIONS : List String :=
  ["jpg", "jpeg", "png", "psd", "tif", "tiff"]

/-! ### Thumbnail pipeline (src/src-tauri/src/thumbnail/)

The external image library is abstracted as an `Oracles` record of pure
functions: JPEG decode (`image::load_from_memory_with_format`), raster
decode (`image::open` on the file bytes), PSD composite parse
(`psd::Psd::from_bytes` with its declared width/height),
`RgbaImage::from_raw` success, `DynamicImage::resize`, and PNG encoding
(`write_to`). The filesystem is an explicit map from path strings to byte
lists. -/

/-- A decoded raster: the dimensions are all the pipeline inspects. -/
structure Img where
  width : Nat
  height : Nat
deriving DecidableEq

/-- The abstracted image-library operations. -/
structure Oracles where
  decodeJpeg : List Nat → Except String Img
  decodeRaster : List Nat → Except String Img
  psdParse : List Nat → Except String Img
  rgbaOk : Img → Bool
  resizeFit : Img → Nat → Nat → Img
  encodePng : Img → Except String (List Nat)

/-- The filesystem as a map from paths to file contents. -/
structure FS where
  files : String → Option (List Nat)

/-- `fs::write`: create or overwrite a file. -/
def FS.write (fs : FS) (p : String) (bs : List Nat) : FS :=
  ⟨fun q => if q = p then some bs else fs.files q⟩

/-- `create_thumbnail` from src/src-tauri/src/image_utils.rs: resize to
the 480 x 672 bounding box and encode as PNG. -/
def create_thumbnail (O : Oracles) (img : Img) : Except String (List Nat) :=
  let thumbnail := O.resizeFit img THUMBNAIL_SIZE (THUMBNAIL_SIZE * 14 / 10)
  match O.encodePng thumbnail with
  | .error e => .error ("サムネイル書き出しエラー: " ++ e)
  | .ok buffer => .ok buffer

/-- The full-composite branch of `generate_psd_thumbnail`: parse the PSD,
validate its declared dimensions before any buffer allocation, build the
flattened RGBA raster, render. -/
def psdComposite (O : Oracles) (data : List Nat) : Except String (List Nat) :=
  match O.psdParse data with
  | .error e => .error ("PSD読み込みエラー: " ++ e)
  | .ok img =>
    match validate_dimensions img.width img.height with
    | .error e => .error e
    | .ok _ =>
      if O.rgbaOk img then create_thumbnail O img
      else .error "画像データの変換に失敗"

/-- `generate_psd_thumbnail` on the file bytes: try the embedded preview
(used only when it decodes and its size reaches THUMBNAIL_SIZE in some
dimension), otherwise fall back to the full composite. -/
def psdThumbFromData (O : Oracles) (data : List Nat) :
    Except String (List Nat) :=
  match extract_psd_embedded_thumbnail data with
  | some jpeg_data =>
    match O.decodeJpeg jpeg_data with
    | .ok img =>
      if THUMBNAIL_SIZE ≤ img.width ∨ THUMBNAIL_SIZE ≤ img.height then
        create_thumbnail O img
      else psdComposite O data
    | .error _ => psdComposite O data
  | none => psdComposite O data

/-- `generate_psd_thumbnail` from src/src-tauri/src/thumbnail/psd.rs
(`fs::read` then the byte-level pipeline). -/
def generate_psd_thumbnail (O : Oracles) (fs : FS) (path : String) :
    Except String (List Nat) :=
  match fs.files path with
  | none => .error "No such file or directory (os error 2)"
  | some data => psdThumbFromData O data

/-- `generate_image_thumbnail` from src/src-tauri/src/thumbnail/image.rs:
`image::open` (its error prefixed) then `create_thumbnail` — note: no
dimension validation on this path. -/
def generate_image_thumbnail (O : Oracles) (fs : FS) (path : String) :
    Except String (List Nat) :=
  let opened : Except String Img :=
    match fs.files path with
    | none => .error "No such file or directory (os error 2)"
    | some bytes => O.decodeRaster bytes
  match opened with
  | .error e => .error ("画像読み込みエラー: " ++ e)
  | .ok img => create_thumbnail O img

/-- Which decoder an extension string selects. -/
inductive DecoderChoice where
  | psd
  | raster
  | unsupported
deriving DecidableEq

/-- The decoder selected by the `match ext.as_str()` dispatch. -/
def decoderFor (ext : String) : DecoderChoice :=
  match ext with
  | "psd" => .psd
  | "tif" | "tiff" | "jpg" | "jpeg" | "png" => .raster
  | _ => .unsupported

/-- The `match ext.as_str()` dispatch of `generate_thumbnail`. -/
def dispatchDecode (O : Oracles) (fs : FS) (path ext : String) :
    Except String (List Nat) :=
  match ext with
  | "psd" => generate_psd_thumbnail O fs path
  | "tif" | "tiff" | "jpg" | "jpeg" | "png" =>
    generate_image_thumbnail O fs path
  | _ => .error ("サポートされていないファイル形式: " ++ ext)

/-- The success payload of the `generate_thumbnail` command. -/
structure ThumbnailResult where
  cache_key : String
  cache_path : String
  status : String
deriving DecidableEq

/-- `cache_dir.join(format!("{}.png", cache_key))`. -/
def cachedPathOf (cacheDir key : String) : String :=
  cacheDir ++ "/" ++ key ++ ".png"

/-- The `generate_thumbnail` command of src/src-tauri/src/thumbnail/mod.rs.
The memory-cache state is received (the `_app_state` parameter) and —
exactly as in the source — never read or written; it is threaded through
unchanged. Only the disk cache is probed: a present cache file returns
status "cached"; otherwise the extension dispatch decodes and renders,
the file is written, and the status is "generated". -/
def generate_thumbnail (O : Oracles) (cacheDir : String)
    (mem : ThumbnailMemoryCache) (fs : FS) (file_path : String)
    (modified_time : Nat) :
    Except String ThumbnailResult × ThumbnailMemoryCache × FS :=
  let key := cache_key file_path modified_time
  match fs.files file_path with
  | none => (.error "ファイルが存在しません", mem, fs)
  | some _ =>
    let cached_path := cachedPathOf cacheDir key
    match fs.files cached_path with
    | some _ => (.ok ⟨key, cached_path, "cached"⟩, mem, fs)
    | none =>
      match dispatchDecode O fs file_path (extLower file_path) with
      | .error e => (.error e, mem, fs)
      | .ok thumbnail_data =>
        (.ok ⟨key, cached_path, "generated"⟩, mem,
          fs.write cached_path thumbnail_data)

/-! ### Concrete fixtures used by witnesses and counterexamples -/

/-- Benign oracles: every decode succeeds with a 960 x 100 embedded
preview and 10 x 10 rasters, resize is the identity, encoding yields the
byte `[7]`. -/
def oracleOk : Oracles :=
  { decodeJpeg := fun _ => .ok ⟨960, 100⟩
    decodeRaster := fun _ => .ok ⟨10, 10⟩
    psdParse := fun _ => .ok ⟨10, 10⟩
    rgbaOk := fun _ => true
    resizeFit := fun i _ _ => i
    encodePng := fun _ => .ok [7] }

/-- Like `oracleOk` but the embedded preview decodes to 10 x 10 (below
the 480 threshold). -/
def oracleSmallPreview : Oracles :=
  { oracleOk with decodeJpeg := fun _ => .ok ⟨10, 10⟩ }

/-- Like `oracleOk` but the embedded preview fails to decode. -/
def oracleJpegFail : Oracles :=
  { oracleOk with decodeJpeg := fun _ => .error "invalid JPEG" }

/-- Like `oracleOk` but the raster decoder reports 20000 x 20000
(400 megapixels, past the validation cap). -/
def oracleBigRaster : Oracles :=
  { oracleOk with decodeRaster := fun _ => .ok ⟨20000, 20000⟩ }

/-- Like `oracleOk` but the PSD composite parser reports 20000 x 20000. -/
def oracleBigPsd : Oracles :=
  { oracleOk with psdParse := fun _ => .ok ⟨20000, 20000⟩ }

/-- A filesystem holding exactly one source file "a.png". -/
def fsA : FS := ⟨fun q => if q = "a.png" then some [1] else none⟩

/-- The sixteen lowercase hex digit characters. -/
def hexDigitChars : List Char := "0123456789abcdef".data

/-- A memory-cache state already holding the key that `generate_thumbnail`
derives for ("a.png", 5). -/
def c2mem : ThumbnailMemoryCache :=
  (ThumbnailMemoryCache.new MEMORY_CACHE_MAX_SIZE).insert
    (cache_key "a.png" 5) "stale preview"

/-- A filesystem holding the source "a.png" and its disk-cache file. -/
def fsCached : FS :=
  ⟨fun q =>
    if q = "a.png" then some [1]
    else if q = cachedPathOf "cache" (cache_key "a.png" 5) then some [9, 9, 9]
    else none⟩

/-- The recency-refresh scenario from the specification: capacity 3,
insert A, B, C, get A, insert D. -/
def mcScenario : ThumbnailMemoryCache :=
  mcRun (ThumbnailMemoryCache.new 3)
    [.ins "A" "1", .ins "B" "2", .ins "C" "3", .get "A", .ins "D" "4"]

/-- A crafted 76-byte PSD buffer holding one thumbnail resource (id 1036,
format 1) whose JPEG payload is the two bytes `[9, 9]`: signature, 22-byte
header, empty color mode section, a 42-byte resources section with one
record (2-byte name field, declared size 30 = 28-byte sub-header + 2). -/
def c1buf : List Nat :=
  psdSig ++ List.replicate 22 0 ++ [0, 0, 0, 0] ++ [0, 0, 0, 42] ++
    bimSig ++ [4, 12] ++ [0, 0] ++ [0, 0, 0, 30] ++
    ([0, 0, 0, 1] ++ List.replicate 24 0) ++ [9, 9]

end Daidori

namespace Daidori

/-- C8: validate_dimensions succeeds exactly on nonzero dimensions that are
each at most 65535 and whose product is at most 100000000; in particular
(0,100), (100,0), (70000,10) and (20000,20000) are rejected while
(1920,1080) is accepted. -/
theorem c8_validate_dimensions_boundaries :
    (∀ w h : Nat, validateOk w h = true ↔
      (1 ≤ w ∧ 1 ≤ h ∧ w ≤ MAX_IMAGE_DIMENSION ∧ h ≤ MAX_IMAGE_DIMENSION ∧
        w * h ≤ MAX_PIXEL_COUNT)) ∧
    validateOk 0 100 = false ∧
    validateOk 100 0 = false ∧
    validateOk 70000 10 = false ∧
    validateOk 20000 20000 = false ∧
    validateOk 1920 1080 = true := by
  refine ⟨?_, by decide, by decide, by decide, by decide, by decide⟩
  intro w h
  simp only [validateOk, validate_dimensions, MAX_IMAGE_DIMENSION, MAX_PIXEL_COUNT]
  split_ifs with h1 h2 h3 <;> simp <;> omega

/-- Once the cursor has reached the declared end of the resources section,
the scan yields `none` whatever fuel remains. -/
theorem scanResources_of_end_le (data : List Nat) (resourcesEnd pos : Nat)
    (h : resourcesEnd ≤ pos) :
    ∀ f, scanResources data resourcesEnd f pos = none := by
  intro f
  cases f with
  | zero => rfl
  | succ f => simp [scanResources, Nat.not_lt.mpr h]

/-- The resource scan is insensitive to fuel as long as the fuel covers the
remaining span `resourcesEnd - pos`: every followed `next` strictly
advances the cursor (the `pos2 ≤ pos` guard), so at most that many
iterations can happen. This is the termination argument of the `while`
loop made explicit. -/
theorem scanResources_fuel_invariant (data : List Nat) (resourcesEnd : Nat) :
    ∀ f g pos, resourcesEnd - pos ≤ f → resourcesEnd - pos ≤ g →
      scanResources data resourcesEnd f pos =
        scanResources data resourcesEnd g pos := by
  intro f
  induction f with
  | zero =>
    intro g pos hf _
    rw [scanResources_of_end_le data resourcesEnd pos (by omega) 0,
      scanResources_of_end_le data resourcesEnd pos (by omega) g]
  | succ f ih =>
    intro g pos hf hg
    by_cases hend : pos < resourcesEnd
    · have hg1 : 1 ≤ g := by omega
      obtain ⟨g, rfl⟩ : ∃ g', g = g' + 1 := ⟨g - 1, by omega⟩
      simp only [scanResources, if_pos hend]
      cases hstep : scanStep data pos with
      | found j => rfl
      | stop => rfl
      | next pos2 =>
        by_cases hadv : pos2 ≤ pos
        · simp [hadv]
        · simp only [if_neg hadv]
          exact ih g pos2 (by omega) (by omega)
    · rw [scanResources_of_end_le data resourcesEnd pos (by omega),
        scanResources_of_end_le data resourcesEnd pos (by omega)]

/-- Successful `readExact` characterised: the read stayed in bounds and
returned exactly the requested slice. -/
theorem readExact_some_iff (data : List Nat) (pos k : Nat) (bs : List Nat) :
    readExact data pos k = some bs ↔
      pos + k ≤ data.length ∧ bs = (data.drop pos).take k := by
  unfold readExact
  split <;> rename_i hb <;> simp [hb, eq_comm]

/-- An in-bounds slice witnesses its own offset. -/
theorem slice_self_witness (data : List Nat) (P K : Nat)
    (hb : P + K ≤ data.length) :
    ∃ off, off + ((data.drop P).take K).length ≤ data.length ∧
      (data.drop P).take K = (data.drop off).take ((data.drop P).take K).length := by
  refine ⟨P, ?_, ?_⟩
  · simp only [List.length_take, List.length_drop]
    omega
  · congr 1
    simp only [List.length_take, List.length_drop]
    omega

/-- A `found` outcome of a scan step always carries a contiguous slice of
the input buffer: the payload was read in bounds. -/
theorem scanStep_found_slice (data : List Nat) (pos : Nat) (j : List Nat)
    (h : scanStep data pos = .found j) :
    ∃ off, off + j.length ≤ data.length ∧ j = (data.drop off).take j.length := by
  unfold scanStep at h
  repeat' first
    | split at h
    | dsimp only at h
  all_goals try exact StepOutcome.noConfusion h
  rw [StepOutcome.found.injEq] at h
  subst h
  rename_i heq
  obtain ⟨hb, hj⟩ := (readExact_some_iff _ _ _ _).mp heq
  subst hj
  exact slice_self_witness data _ _ hb

/-- Any payload produced by the resource scan is an in-bounds contiguous
slice of the input buffer. -/
theorem scanResources_some_slice (data : List Nat) (resourcesEnd : Nat) :
    ∀ f pos j, scanResources data resourcesEnd f pos = some j →
      ∃ off, off + j.length ≤ data.length ∧
        j = (data.drop off).take j.length := by
  intro f
  induction f with
  | zero => intro pos j h; exact absurd h (by simp [scanResources])
  | succ f ih =>
    intro pos j h
    rw [scanResources] at h
    split at h
    · split at h
      · rename_i hstep
        rw [Option.some.injEq] at h
        subst h
        exact scanStep_found_slice data pos _ hstep
      · exact absurd h (by simp)
      · split at h
        · exact absurd h (by simp)
        · exact ih _ _ h
    · exact absurd h (by simp)

/-- Buffers that do not start with the "8BPS" magic yield `none`. -/
theorem extract_none_of_bad_magic (data : List Nat)
    (h : data.take 4 ≠ psdSig) :
    extract_psd_embedded_thumbnail data = none := by
  unfold extract_psd_embedded_thumbnail
  cases hr : readExact data 0 4 with
  | none => rfl
  | some sig =>
    obtain ⟨hb, hs⟩ := (readExact_some_iff _ _ _ _).mp hr
    rw [List.drop_zero] at hs
    subst hs
    simp [h]

/-- Buffers shorter than the fixed header region plus both section length
fields (34 bytes when the color mode section is empty) yield `none`: a
truncation anywhere in the header makes a structural read fail. -/
theorem extract_none_of_short (data : List Nat) (h : data.length < 34) :
    extract_psd_embedded_thumbnail data = none := by
  unfold extract_psd_embedded_thumbnail
  cases hr : readExact data 0 4 with
  | none => rfl
  | some sig =>
    obtain ⟨hb, hs⟩ := (readExact_some_iff _ _ _ _).mp hr
    by_cases hm : sig ≠ psdSig
    · simp [hm]
    · simp only [hm, if_false]
      cases hc : readExact data 26 4 with
      | none => rfl
      | some cmb =>
        obtain ⟨hb2, _⟩ := (readExact_some_iff _ _ _ _).mp hc
        dsimp only
        cases hl : readExact data (30 + be cmb) 4 with
        | none => rfl
        | some rlb =>
          obtain ⟨hb3, _⟩ := (readExact_some_iff _ _ _ _).mp hl
          omega

end Daidori

namespace Daidori

/-- C1: the embedded-preview extractor is a total function returning an
Option: a buffer whose first four bytes are not the "8BPS" magic yields
`none`; a buffer truncated inside the fixed header region (fewer than 34
bytes) yields `none`; the resource-scanning loop terminates — its result
never depends on fuel beyond the remaining span `resourcesEnd - pos`,
because every followed iteration strictly advances the cursor past the
`pos2 ≤ pos` guard; and any returned payload is a contiguous in-bounds
slice of the buffer, so no read ever went past the end. -/
theorem c1_extractor_safety :
    (∀ data : List Nat, data.take 4 ≠ psdSig →
        extract_psd_embedded_thumbnail data = none) ∧
    (∀ data : List Nat, data.length < 34 →
        extract_psd_embedded_thumbnail data = none) ∧
    (∀ (data : List Nat) (resourcesEnd f pos : Nat), resourcesEnd - pos ≤ f →
        scanResources data resourcesEnd f pos =
          scanResources data resourcesEnd (resourcesEnd - pos) pos) ∧
    (∀ (data j : List Nat), extract_psd_embedded_thumbnail data = some j →
        ∃ off, off + j.length ≤ data.length ∧
          j = (data.drop off).take j.length) := by
  refine ⟨extract_none_of_bad_magic, extract_none_of_short, ?_, ?_⟩
  · intro data resourcesEnd f pos hf
    exact scanResources_fuel_invariant data resourcesEnd f (resourcesEnd - pos)
      pos hf (Nat.le_refl _)
  · intro data j h
    unfold extract_psd_embedded_thumbnail at h
    repeat' first
      | split at h
      | dsimp only at h
    all_goals try exact absurd h (Option.noConfusion)
    exact scanResources_some_slice data _ _ _ _ h

/-- Witness for C1 at concrete inputs: a non-PSD buffer, a truncated
header, a fuel-insensitive scan, and the crafted buffer `c1buf` whose
returned payload is an in-bounds slice. -/
theorem c1_extractor_safety_witness :
    extract_psd_embedded_thumbnail [1, 2, 3, 4, 5] = none ∧
    extract_psd_embedded_thumbnail (psdSig ++ [0, 0, 0]) = none ∧
    scanResources [] 5 9 0 = scanResources [] 5 5 0 ∧
    (∃ off, off + ([9, 9] : List Nat).length ≤ c1buf.length ∧
      ([9, 9] : List Nat) = (c1buf.drop off).take ([9, 9] : List Nat).length) := by
  refine ⟨c1_extractor_safety.1 _ (by decide),
    c1_extractor_safety.2.1 _ (by decide), ?_, ?_⟩
  · exact c1_extractor_safety.2.2.1 [] 5 9 0 (by decide)
  · exact c1_extractor_safety.2.2.2 c1buf [9, 9] (by decide)

/-! ### Lemmas about the association-list model of the HashMap -/

theorem filter_keyNe_cons (x k2 v : String) (rest : List (String × String)) :
    ((k2, v) :: rest).filter (keyNe x) =
      if k2 = x then rest.filter (keyNe x)
      else (k2, v) :: rest.filter (keyNe x) := by
  by_cases h : k2 = x <;> simp [List.filter_cons, keyNe, h]

theorem filter_strNe_mem (x : String) (l : List String) (a : String) :
    a ∈ l.filter (strNe x) ↔ a ∈ l ∧ a ≠ x := by
  simp [List.mem_filter, strNe]

theorem mapLookup_isSome_iff (k : String) (m : List (String × String)) :
    (mapLookup k m).isSome = true ↔ k ∈ m.map Prod.fst := by
  induction m with
  | nil => simp [mapLookup]
  | cons kv rest ih =>
    obtain ⟨k2, v⟩ := kv
    by_cases h : k2 = k
    · subst h
      simp [mapLookup]
    · rw [List.map_cons, mapLookup, if_neg h]
      simp only [List.mem_cons, ih]
      constructor
      · exact fun hk => Or.inr hk
      · rintro (hk | hk)
        · exact absurd hk.symm h
        · exact hk

theorem mapLookup_eq_none_iff (k : String) (m : List (String × String)) :
    mapLookup k m = none ↔ k ∉ m.map Prod.fst := by
  rw [← mapLookup_isSome_iff]
  cases mapLookup k m <;> simp

theorem mapLookup_filter_ne (k x : String) (m : List (String × String))
    (h : k ≠ x) :
    mapLookup k (m.filter (keyNe x)) = mapLookup k m := by
  induction m with
  | nil => simp [mapLookup]
  | cons kv rest ih =>
    obtain ⟨k2, v⟩ := kv
    rw [filter_keyNe_cons]
    by_cases h2 : k2 = x
    · subst h2
      rw [if_pos rfl, mapLookup, if_neg (fun e => h e.symm)]
      exact ih
    · rw [if_neg h2, mapLookup, mapLookup]
      by_cases h3 : k2 = k
      · rw [if_pos h3, if_pos h3]
      · rw [if_neg h3, if_neg h3]
        exact ih

theorem mapLookup_filter_self (x : String) (m : List (String × String)) :
    mapLookup x (m.filter (keyNe x)) = none := by
  induction m with
  | nil => simp [mapLookup]
  | cons kv rest ih =>
    obtain ⟨k2, v⟩ := kv
    rw [filter_keyNe_cons]
    by_cases h2 : k2 = x
    · rw [if_pos h2]
      exact ih
    · rw [if_neg h2, mapLookup, if_neg h2]
      exact ih

theorem filter_eq_self_of_lookup_none (k : String)
    (m : List (String × String)) (h : mapLookup k m = none) :
    m.filter (keyNe k) = m := by
  induction m with
  | nil => simp
  | cons kv rest ih =>
    obtain ⟨k2, v⟩ := kv
    rw [mapLookup] at h
    by_cases h2 : k2 = k
    · rw [if_pos h2] at h
      exact absurd h (by simp)
    · rw [if_neg h2] at h
      rw [filter_keyNe_cons, if_neg h2, ih h]

theorem mapLookup_filter_none (k : String) (m : List (String × String))
    (p : String × String → Bool) (h : mapLookup k m = none) :
    mapLookup k (m.filter p) = none := by
  rw [mapLookup_eq_none_iff] at h ⊢
  intro hmem
  rcases List.mem_map.mp hmem with ⟨kv, hkv, rfl⟩
  exact h (List.mem_map_of_mem _ (List.mem_of_mem_filter hkv))

theorem keys_filter_nodup (m : List (String × String))
    (p : String × String → Bool) (h : (m.map Prod.fst).Nodup) :
    ((m.filter p).map Prod.fst).Nodup :=
  ((List.filter_sublist m).map Prod.fst).nodup h

theorem length_filter_ne_of_mem (x : String) (m : List (String × String))
    (hnd : (m.map Prod.fst).Nodup) (hx : (mapLookup x m).isSome = true) :
    (m.filter (keyNe x)).length + 1 = m.length := by
  induction m with
  | nil => simp [mapLookup] at hx
  | cons kv rest ih =>
    obtain ⟨k2, v⟩ := kv
    simp only [List.map_cons, List.nodup_cons] at hnd
    by_cases h2 : k2 = x
    · subst h2
      have hnone : mapLookup k2 rest = none :=
        (mapLookup_eq_none_iff _ _).mpr hnd.1
      rw [filter_keyNe_cons, if_pos rfl, filter_eq_self_of_lookup_none _ _ hnone]
      simp
    · rw [mapLookup, if_neg h2] at hx
      rw [filter_keyNe_cons, if_neg h2]
      simp only [List.length_cons]
      rw [← ih hnd.2 hx]

theorem map_eq_nil_of_lookup_none (m : List (String × String))
    (h : ∀ j, mapLookup j m = none) : m = [] := by
  cases m with
  | nil => rfl
  | cons kv rest =>
    obtain ⟨k2, v⟩ := kv
    have := h k2
    rw [mapLookup, if_pos rfl] at this
    exact absurd this (by simp)

theorem mapLookup_mapInsert_self (k v : String) (m : List (String × String)) :
    mapLookup k (mapInsert k v m) = some v := by
  rw [mapInsert, mapLookup, if_pos rfl]

theorem mapLookup_mapInsert_ne (j k v : String) (m : List (String × String))
    (h : j ≠ k) : mapLookup j (mapInsert k v m) = mapLookup j m := by
  rw [mapInsert, mapLookup, if_neg (fun e => h e.symm)]
  exact mapLookup_filter_ne j k m h

/-! ### Well-formedness preservation for the memory cache -/

theorem mcGet_wf (c : ThumbnailMemoryCache) (k : String) (h : McWf c) :
    McWf (c.get k).2 := by
  obtain ⟨ho, hc, hm⟩ := h
  unfold ThumbnailMemoryCache.get
  cases hl : mapLookup k c.cache with
  | none => exact ⟨ho, hc, hm⟩
  | some v =>
    refine ⟨?_, hc, ?_⟩
    · rw [List.nodup_append]
      refine ⟨ho.filter _, List.nodup_singleton k, ?_⟩
      intro a hma hmk
      simp only [List.mem_singleton] at hmk
      subst hmk
      exact ((filter_strNe_mem _ _ _).mp hma).2 rfl
    · intro j
      rw [List.mem_append, filter_strNe_mem, List.mem_singleton]
      by_cases hj : j = k
      · subst hj
        simp [hl]
      · simp only [hj, or_false, and_iff_left hj]
        exact hm j

theorem mcGet_cache_eq (c : ThumbnailMemoryCache) (k : String) :
    (c.get k).2.cache = c.cache ∧ (c.get k).2.max_size = c.max_size := by
  unfold ThumbnailMemoryCache.get
  cases mapLookup k c.cache <;> exact ⟨rfl, rfl⟩

/-- The shared final step of `insert` (append as most-recently-used and
store the value) preserves well-formedness, provided the key was removed
from the intermediate order and the intermediate state is coherent away
from the key. -/
theorem mcPush_wf (c1 : ThumbnailMemoryCache) (k v : String)
    (ho : c1.order.Nodup) (hkeys : (c1.cache.map Prod.fst).Nodup)
    (hmem : ∀ j, j ≠ k → (j ∈ c1.order ↔ (mapLookup j c1.cache).isSome))
    (hk : k ∉ c1.order) :
    McWf { c1 with order := c1.order ++ [k], cache := mapInsert k v c1.cache } := by
  refine ⟨?_, ?_, ?_⟩
  · rw [List.nodup_append]
    refine ⟨ho, List.nodup_singleton k, ?_⟩
    intro a hma hmk
    simp only [List.mem_singleton] at hmk
    subst hmk
    exact hk hma
  · simp only [mapInsert, List.map_cons, List.nodup_cons]
    refine ⟨?_, keys_filter_nodup _ _ hkeys⟩
    rw [← mapLookup_eq_none_iff]
    exact mapLookup_filter_self k c1.cache
  · intro j
    by_cases hj : j = k
    · subst hj
      simp [mapLookup_mapInsert_self]
    · simp only [List.mem_append, List.mem_singleton, hj, or_false]
      rw [mapLookup_mapInsert_ne j k v c1.cache hj]
      exact hmem j hj

theorem mcNew_wf (n : Nat) : McWf (ThumbnailMemoryCache.new n) := by
  refine ⟨List.nodup_nil, by simp [ThumbnailMemoryCache.new], ?_⟩
  intro k
  simp [ThumbnailMemoryCache.new, mapLookup]

/-- A well-formed cache with at least one stored entry has a nonempty
recency order. -/
theorem mcOrder_nonempty (c : ThumbnailMemoryCache) (h : McWf c)
    (hl : 1 ≤ c.cache.length) : c.order ≠ [] := by
  obtain ⟨_, _, hm⟩ := h
  intro he
  have hnone : ∀ j, mapLookup j c.cache = none := by
    intro j
    have hj := hm j
    rw [he] at hj
    simp only [List.not_mem_nil, false_iff] at hj
    cases hcase : mapLookup j c.cache with
    | none => rfl
    | some v => exact absurd (by simp [hcase]) hj
  rw [map_eq_nil_of_lookup_none _ hnone] at hl
  simp at hl

/-- `insert` preserves well-formedness, never grows the map beyond the
capacity (when the capacity is at least one), and keeps the capacity. -/
theorem mcInsert_wf_size (c : ThumbnailMemoryCache) (k v : String)
    (hn : 1 ≤ c.max_size) (h : McWf c) (hs : c.cache.length ≤ c.max_size) :
    McWf (c.insert k v) ∧ (c.insert k v).cache.length ≤ c.max_size ∧
      (c.insert k v).max_size = c.max_size := by
  obtain ⟨ho, hkeys, hm⟩ := h
  unfold ThumbnailMemoryCache.insert
  cases hlk : mapLookup k c.cache with
  | some v0 =>
    simp only [hlk, Option.isSome_some, if_true]
    refine ⟨?_, ?_, by trivial⟩
    · refine mcPush_wf { c with order := c.order.filter (strNe k) } k v
        (ho.filter _) hkeys ?_ ?_
      · intro j hj
        rw [filter_strNe_mem, and_iff_left hj]
        exact hm j
      · intro hk
        exact ((filter_strNe_mem _ _ _).mp hk).2 rfl
    · show (mapInsert k v c.cache).length ≤ c.max_size
      rw [mapInsert, List.length_cons]
      have := length_filter_ne_of_mem k c.cache hkeys (by simp [hlk])
      omega
  | none =>
    simp only [hlk, Option.isSome_none, Bool.false_eq_true, if_false]
    have hknotin : k ∉ c.order := by
      intro hk
      have := (hm k).mp hk
      rw [hlk] at this
      simp at this
    by_cases hcap : c.max_size ≤ c.cache.length
    · rw [if_pos hcap]
      have hlen : c.cache.length = c.max_size := le_antisymm hs hcap
      obtain ⟨oldest, rest, hoe⟩ : ∃ o r, c.order = o :: r := by
        cases hcase : c.order with
        | nil =>
          exact absurd hcase (mcOrder_nonempty c ⟨ho, hkeys, hm⟩ (by omega))
        | cons o r => exact ⟨o, r, rfl⟩
      rw [hoe]
      have holdest : (mapLookup oldest c.cache).isSome = true :=
        (hm oldest).mp (by rw [hoe]; exact List.mem_cons_self _ _)
      have hrestnd : rest.Nodup := by
        have hoo := ho
        rw [hoe, List.nodup_cons] at hoo
        exact hoo.2
      have holdnotrest : oldest ∉ rest := by
        have hoo := ho
        rw [hoe, List.nodup_cons] at hoo
        exact hoo.1
      refine ⟨?_, ?_, by trivial⟩
      · refine mcPush_wf
          { c with order := rest, cache := mapRemove oldest c.cache } k v
          hrestnd (keys_filter_nodup _ _ hkeys) ?_ ?_
        · intro j hj
          show j ∈ rest ↔ (mapLookup j (mapRemove oldest c.cache)).isSome
          by_cases hjo : j = oldest
          · subst hjo
            rw [mapRemove, mapLookup_filter_self]
            simp [holdnotrest]
          · rw [mapRemove, mapLookup_filter_ne j oldest _ hjo, ← hm j, hoe,
              List.mem_cons]
            simp [hjo]
        · intro hk
          exact hknotin (by rw [hoe]; exact List.mem_cons_of_mem _ hk)
      · show (mapInsert k v (mapRemove oldest c.cache)).length ≤ c.max_size
        have hkr : mapLookup k (mapRemove oldest c.cache) = none :=
          mapLookup_filter_none k c.cache _ hlk
        rw [mapInsert, filter_eq_self_of_lookup_none k _ hkr, List.length_cons,
          mapRemove]
        have := length_filter_ne_of_mem oldest c.cache hkeys holdest
        omega
    · rw [if_neg hcap]
      refine ⟨?_, ?_, by trivial⟩
      · exact mcPush_wf c k v ho hkeys (fun j _ => hm j) hknotin
      · show (mapInsert k v c.cache).length ≤ c.max_size
        rw [mapInsert, filter_eq_self_of_lookup_none k _ hlk, List.length_cons]
        omega

/-- Running any operation sequence from a well-formed, in-capacity state
preserves well-formedness, the size bound, and the capacity, provided the
capacity is at least one. -/
theorem mcRun_inv (n : Nat) (hn : 1 ≤ n) :
    ∀ (ops : List McOp) (c : ThumbnailMemoryCache), McWf c →
      c.cache.length ≤ n → c.max_size = n →
      McWf (mcRun c ops) ∧ (mcRun c ops).cache.length ≤ n ∧
        (mcRun c ops).max_size = n := by
  intro ops
  induction ops with
  | nil => exact fun c h hl hmax => ⟨h, hl, hmax⟩
  | cons op rest ih =>
    intro c h hl hmax
    have hstep : mcRun c (op :: rest) = mcRun (mcApply c op) rest := by
      simp [mcRun]
    rw [hstep]
    cases op with
    | get key =>
      refine ih ((c.get key).2) (mcGet_wf c key h) ?_ ?_
      · rw [(mcGet_cache_eq c key).1]
        exact hl
      · rw [(mcGet_cache_eq c key).2]
        exact hmax
    | ins key value =>
      obtain ⟨hw, hlen, hmx⟩ :=
        mcInsert_wf_size c key value (by omega) h (by omega)
      exact ih (c.insert key value) hw (by omega) (by omega)

/-- C5: LRU policy of the memory cache. Inserting a key already present
overwrites its value, promotes it to most-recently-used and evicts
nothing; inserting a new key while the cache holds `max_size ≥ 1` entries
evicts exactly the front (least recently touched) entry of the recency
order; and the capacity-3 scenario insert A, B, C, get A, insert D leaves
A, C, D present and evicts B. -/
theorem c5_lru_policy :
    (∀ (c : ThumbnailMemoryCache) (k v : String), McWf c →
      mcContains c k = true →
        ((∀ j, mcContains (c.insert k v) j = mcContains c j) ∧
         mapLookup k (c.insert k v).cache = some v ∧
         (c.insert k v).order.getLast? = some k ∧
         (c.insert k v).cache.length = c.cache.length)) ∧
    (∀ (c : ThumbnailMemoryCache) (k v : String), McWf c →
      mcContains c k = false → c.cache.length = c.max_size →
      1 ≤ c.max_size →
        ∃ oldest rest, c.order = oldest :: rest ∧
          ∀ j, mcContains (c.insert k v) j = true ↔
            (j = k ∨ (mcContains c j = true ∧ j ≠ oldest))) ∧
    (mcContains mcScenario "A" = true ∧ mcContains mcScenario "B" = false ∧
     mcContains mcScenario "C" = true ∧ mcContains mcScenario "D" = true) := by
  refine ⟨?_, ?_, by decide, by decide, by decide, by decide⟩
  · intro c k v hwf hcont
    obtain ⟨ho, hkeys, hm⟩ := hwf
    rw [mcContains] at hcont
    unfold ThumbnailMemoryCache.insert
    simp only [hcont, if_true]
    refine ⟨?_, ?_, ?_, ?_⟩
    · intro j
      show mcContains { c with order := _, cache := mapInsert k v c.cache } j
        = mcContains c j
      rw [mcContains, mcContains]
      by_cases hj : j = k
      · subst hj
        show (mapLookup j (mapInsert j v c.cache)).isSome
          = (mapLookup j c.cache).isSome
        rw [mapLookup_mapInsert_self, hcont]
        rfl
      · show (mapLookup j (mapInsert k v c.cache)).isSome
          = (mapLookup j c.cache).isSome
        rw [mapLookup_mapInsert_ne j k v c.cache hj]
    · exact mapLookup_mapInsert_self k v c.cache
    · show (c.order.filter (strNe k) ++ [k]).getLast? = some k
      rw [List.getLast?_concat]
    · show (mapInsert k v c.cache).length = c.cache.length
      rw [mapInsert, List.length_cons]
      have := length_filter_ne_of_mem k c.cache hkeys hcont
      omega
  · intro c k v hwf hcont hfull hn
    obtain ⟨ho, hkeys, hm⟩ := hwf
    have hlk : mapLookup k c.cache = none := by
      rw [mcContains] at hcont
      cases hcase : mapLookup k c.cache with
      | none => rfl
      | some v0 => rw [hcase] at hcont; exact absurd hcont (by simp)
    obtain ⟨oldest, rest, hoe⟩ : ∃ o r, c.order = o :: r := by
      cases hcase : c.order with
      | nil =>
        exact absurd hcase
          (mcOrder_nonempty c ⟨ho, hkeys, hm⟩ (by omega))
      | cons o r => exact ⟨o, r, rfl⟩
    have holdnotrest : oldest ∉ rest := by
      have hoo := ho
      rw [hoe, List.nodup_cons] at hoo
      exact hoo.1
    refine ⟨oldest, rest, hoe, ?_⟩
    intro j
    unfold ThumbnailMemoryCache.insert
    simp only [hlk, Option.isSome_none, Bool.false_eq_true, if_false,
      if_pos (le_of_eq hfull.symm), hoe]
    rw [mcContains]
    show (mapLookup j (mapInsert k v (mapRemove oldest c.cache))).isSome
        = true ↔ _
    by_cases hj : j = k
    · subst hj
      rw [mapLookup_mapInsert_self]
      simp
    · rw [mapLookup_mapInsert_ne j k v _ hj]
      by_cases hjo : j = oldest
      · subst hjo
        rw [mapRemove, mapLookup_filter_self]
        simp [hj]
      · rw [mapRemove, mapLookup_filter_ne j oldest _ hjo, mcContains]
        simp [hj, hjo]

/-- Witness for C5: the overwrite clause at a one-entry cache, the
eviction clause at a full two-entry cache reached by two inserts. -/
theorem c5_lru_policy_witness :
    ((∀ j, mcContains ((mcRun (ThumbnailMemoryCache.new 2)
        [.ins "A" "a"]).insert "A" "z") j
      = mcContains (mcRun (ThumbnailMemoryCache.new 2) [.ins "A" "a"]) j) ∧
     mapLookup "A" ((mcRun (ThumbnailMemoryCache.new 2)
        [.ins "A" "a"]).insert "A" "z").cache = some "z" ∧
     ((mcRun (ThumbnailMemoryCache.new 2)
        [.ins "A" "a"]).insert "A" "z").order.getLast? = some "A" ∧
     ((mcRun (ThumbnailMemoryCache.new 2)
        [.ins "A" "a"]).insert "A" "z").cache.length
      = (mcRun (ThumbnailMemoryCache.new 2) [.ins "A" "a"]).cache.length) ∧
    (∃ oldest rest,
      (mcRun (ThumbnailMemoryCache.new 2)
        [.ins "A" "a", .ins "B" "b"]).order = oldest :: rest ∧
      ∀ j, mcContains ((mcRun (ThumbnailMemoryCache.new 2)
          [.ins "A" "a", .ins "B" "b"]).insert "C" "c") j = true ↔
        (j = "C" ∨
          (mcContains (mcRun (ThumbnailMemoryCache.new 2)
            [.ins "A" "a", .ins "B" "b"]) j = true ∧ j ≠ oldest))) := by
  constructor
  · exact c5_lru_policy.1 _ "A" "z"
      ((mcRun_inv 2 (by decide) [.ins "A" "a"] _ (mcNew_wf 2)
        (by decide) rfl).1) (by decide)
  · exact c5_lru_policy.2.1 _ "C" "c"
      ((mcRun_inv 2 (by decide) [.ins "A" "a", .ins "B" "b"] _ (mcNew_wf 2)
        (by decide) rfl).1) (by decide) (by decide) (by decide)

/-- C6 as stated is false at capacity zero: `new(0)` admits one stored
entry after a single insert, because the eviction branch pops from an
empty order and then inserts anyway. -/
theorem c6_capacity_counterexample :
    (ThumbnailMemoryCache.new 0).max_size = 0 ∧
    (mcRun (ThumbnailMemoryCache.new 0) [.ins "A" "a"]).max_size = 0 ∧
    (mcRun (ThumbnailMemoryCache.new 0) [.ins "A" "a"]).cache.length = 1 := by
  decide

/-- C6 (amended with capacity at least 1): for every cache constructed
with capacity `n ≥ 1` and every operation sequence, the number of stored
entries never exceeds `n`, the recency order and the mapping have no
duplicates, and they hold exactly the same key set. -/
theorem c6_memory_cache_invariant :
    ∀ n : Nat, 1 ≤ n → ∀ ops : List McOp,
      (mcRun (ThumbnailMemoryCache.new n) ops).cache.length ≤ n ∧
      (mcRun (ThumbnailMemoryCache.new n) ops).order.Nodup ∧
      ((mcRun (ThumbnailMemoryCache.new n) ops).cache.map Prod.fst).Nodup ∧
      (∀ k, k ∈ (mcRun (ThumbnailMemoryCache.new n) ops).order ↔
        (mapLookup k (mcRun (ThumbnailMemoryCache.new n) ops).cache).isSome) := by
  intro n hn ops
  obtain ⟨⟨h1, h2, h3⟩, hlen, _⟩ :=
    mcRun_inv n hn ops (ThumbnailMemoryCache.new n) (mcNew_wf n) (by
      show (0 : Nat) ≤ n
      omega) rfl
  exact ⟨hlen, h1, h2, h3⟩

/-- Witness for C6 at capacity 2 with three inserts and a get. -/
theorem c6_memory_cache_invariant_witness :
    (mcRun (ThumbnailMemoryCache.new 2)
      [.ins "A" "a", .ins "B" "b", .get "A", .ins "C" "c"]).cache.length ≤ 2 ∧
    (mcRun (ThumbnailMemoryCache.new 2)
      [.ins "A" "a", .ins "B" "b", .get "A", .ins "C" "c"]).order.Nodup := by
  have h := c6_memory_cache_invariant 2 (by decide)
    [.ins "A" "a", .ins "B" "b", .get "A", .ins "C" "c"]
  exact ⟨h.1, h.2.1⟩

/-- The fast path is taken exactly when the preview decodes and reaches
the threshold in some dimension. -/
theorem psdThumb_fast (O : Oracles) (data jpeg : List Nat) (img : Img)
    (hx : extract_psd_embedded_thumbnail data = some jpeg)
    (hd : O.decodeJpeg jpeg = .ok img)
    (hs : THUMBNAIL_SIZE ≤ img.width ∨ THUMBNAIL_SIZE ≤ img.height) :
    psdThumbFromData O data = create_thumbnail O img := by
  rw [psdThumbFromData, hx]
  dsimp only
  rw [hd]
  dsimp only
  rw [if_pos hs]

/-- A decodable preview below the threshold falls back to the composite. -/
theorem psdThumb_fallback_small (O : Oracles) (data jpeg : List Nat)
    (img : Img) (hx : extract_psd_embedded_thumbnail data = some jpeg)
    (hd : O.decodeJpeg jpeg = .ok img)
    (hs : ¬(THUMBNAIL_SIZE ≤ img.width ∨ THUMBNAIL_SIZE ≤ img.height)) :
    psdThumbFromData O data = psdComposite O data := by
  rw [psdThumbFromData, hx]
  dsimp only
  rw [hd]
  dsimp only
  rw [if_neg hs]

/-- No preview falls back to the composite. -/
theorem psdThumb_fallback_none (O : Oracles) (data : List Nat)
    (hx : extract_psd_embedded_thumbnail data = none) :
    psdThumbFromData O data = psdComposite O data := by
  rw [psdThumbFromData, hx]

/-- An undecodable preview falls back to the composite. -/
theorem psdThumb_fallback_undecodable (O : Oracles) (data jpeg : List Nat)
    (e : String) (hx : extract_psd_embedded_thumbnail data = some jpeg)
    (hd : O.decodeJpeg jpeg = .error e) :
    psdThumbFromData O data = psdComposite O data := by
  rw [psdThumbFromData, hx]
  dsimp only
  rw [hd]

/-- C7: generate_psd_thumbnail takes the embedded-preview fast path
exactly when the extractor returns a payload that decodes to an image
whose largest dimension reaches the target render size; when the
extractor returns none, the payload fails to decode, or both dimensions
are below the target, it runs the full composite. -/
theorem c7_fast_path_threshold :
    ∀ (O : Oracles) (data : List Nat),
      (∀ jpeg img, extract_psd_embedded_thumbnail data = some jpeg →
        O.decodeJpeg jpeg = .ok img →
        ((THUMBNAIL_SIZE ≤ max img.width img.height →
          psdThumbFromData O data = create_thumbnail O img) ∧
         (max img.width img.height < THUMBNAIL_SIZE →
          psdThumbFromData O data = psdComposite O data))) ∧
      (extract_psd_embedded_thumbnail data = none →
        psdThumbFromData O data = psdComposite O data) ∧
      (∀ jpeg e, extract_psd_embedded_thumbnail data = some jpeg →
        O.decodeJpeg jpeg = .error e →
        psdThumbFromData O data = psdComposite O data) := by
  intro O data
  refine ⟨?_, psdThumb_fallback_none O data, ?_⟩
  · intro jpeg img hx hd
    constructor
    · intro hthresh
      exact psdThumb_fast O data jpeg img hx hd (le_max_iff.mp hthresh)
    · intro hlt
      refine psdThumb_fallback_small O data jpeg img hx hd ?_
      rw [← le_max_iff]
      omega
  · intro jpeg e hx hd
    exact psdThumb_fallback_undecodable O data jpeg e hx hd

/-- Witness for C7 on the crafted buffer `c1buf` (embedded preview
`[9, 9]`): a 960-wide preview is used directly, a 10 x 10 preview and an
undecodable preview fall back, and a buffer without a preview falls
back. -/
theorem c7_fast_path_threshold_witness :
    psdThumbFromData oracleOk c1buf = create_thumbnail oracleOk ⟨960, 100⟩ ∧
    psdThumbFromData oracleSmallPreview c1buf =
      psdComposite oracleSmallPreview c1buf ∧
    psdThumbFromData oracleJpegFail c1buf =
      psdComposite oracleJpegFail c1buf ∧
    psdThumbFromData oracleOk [1, 2, 3] = psdComposite oracleOk [1, 2, 3] := by
  refine ⟨?_, ?_, ?_, ?_⟩
  · exact ((c7_fast_path_threshold oracleOk c1buf).1 [9, 9] ⟨960, 100⟩
      (by decide) rfl).1 (by decide)
  · exact ((c7_fast_path_threshold oracleSmallPreview c1buf).1 [9, 9]
      ⟨10, 10⟩ (by decide) rfl).2 (by decide)
  · exact (c7_fast_path_threshold oracleJpegFail c1buf).2.2 [9, 9]
      "invalid JPEG" (by decide) rfl
  · exact (c7_fast_path_threshold oracleOk [1, 2, 3]).2.1 (by decide)

/-- C3 as stated is false: the direct raster decode path renders and
succeeds even when the decoded dimensions (20000 x 20000, four times the
pixel cap) fail validate_dimensions — no validation runs on that path. -/
theorem c3_validation_counterexample :
    generate_image_thumbnail oracleBigRaster fsA "a.png" = .ok [7] ∧
    validateOk 20000 20000 = false := by
  exact ⟨rfl, by decide⟩

/-- C3 (amended): dimension validation runs only on the PSD
full-composite path. The direct raster path and the embedded-preview fast
path render whatever was decoded, with no dimension validation; the
composite path rejects before building the raster whenever validation
fails. -/
theorem c3_validation_scope :
    (∀ (O : Oracles) (fs : FS) (p : String) (bs : List Nat) (img : Img),
      fs.files p = some bs → O.decodeRaster bs = .ok img →
      generate_image_thumbnail O fs p = create_thumbnail O img) ∧
    (∀ (O : Oracles) (data jpeg : List Nat) (img : Img),
      extract_psd_embedded_thumbnail data = some jpeg →
      O.decodeJpeg jpeg = .ok img →
      THUMBNAIL_SIZE ≤ img.width ∨ THUMBNAIL_SIZE ≤ img.height →
      psdThumbFromData O data = create_thumbnail O img) ∧
    (∀ (O : Oracles) (data : List Nat) (img : Img),
      O.psdParse data = .ok img → validateOk img.width img.height = false →
      ∃ e, psdComposite O data = .error e) := by
  refine ⟨?_, ?_, ?_⟩
  · intro O fs p bs img hfs hdec
    rw [generate_image_thumbnail, hfs]
    dsimp only
    rw [hdec]
  · exact fun O data jpeg img hx hd hs => psdThumb_fast O data jpeg img hx hd hs
  · intro O data img hparse hval
    rw [psdComposite, hparse]
    dsimp only
    cases hv : validate_dimensions img.width img.height with
    | error e => exact ⟨e, rfl⟩
    | ok u =>
      rw [validateOk, hv] at hval
      exact absurd hval (by simp)

/-- Witness for C3's amended statement: the oversized raster renders on
the direct path, the big preview renders on the fast path, and an
oversized composite parse is rejected. -/
theorem c3_validation_scope_witness :
    generate_image_thumbnail oracleBigRaster fsA "a.png" =
      create_thumbnail oracleBigRaster ⟨20000, 20000⟩ ∧
    psdThumbFromData oracleOk c1buf = create_thumbnail oracleOk ⟨960, 100⟩ ∧
    (∃ e, psdComposite oracleBigPsd [1, 2, 3] = .error e) := by
  refine ⟨?_, ?_, ?_⟩
  · exact c3_validation_scope.1 oracleBigRaster fsA "a.png" [1] ⟨20000, 20000⟩
      (by decide) rfl
  · exact c3_validation_scope.2.1 oracleOk c1buf [9, 9] ⟨960, 100⟩
      (by decide) rfl (by decide)
  · exact c3_validation_scope.2.2 oracleBigPsd [1, 2, 3] ⟨20000, 20000⟩
      rfl (by decide)

set_option maxRecDepth 8000 in
/-- C2 is false: the orchestrator never consults the memory cache. With
the derived key present in the memory cache and the disk cache missing,
the command decodes anyway and reports "generated", returning the memory
cache untouched; and on a disk hit nothing is inserted into the memory
cache. -/
theorem c2_memory_probe_counterexample :
    mcContains c2mem (cache_key "a.png" 5) = true ∧
    (generate_thumbnail oracleOk "cache" c2mem fsA "a.png" 5).1 =
      .ok ⟨cache_key "a.png" 5, cachedPathOf "cache" (cache_key "a.png" 5),
        "generated"⟩ ∧
    (generate_thumbnail oracleOk "cache" c2mem fsA "a.png" 5).2.1 = c2mem ∧
    (generate_thumbnail oracleOk "cache" (ThumbnailMemoryCache.new 20)
        fsCached "a.png" 5).1 =
      .ok ⟨cache_key "a.png" 5, cachedPathOf "cache" (cache_key "a.png" 5),
        "cached"⟩ ∧
    (generate_thumbnail oracleOk "cache" (ThumbnailMemoryCache.new 20)
        fsCached "a.png" 5).2.1 = ThumbnailMemoryCache.new 20 := by
  exact ⟨by decide, by decide, by decide, by decide, by decide⟩

/-- C2 (amended): generate_thumbnail probes only the disk cache. The
memory-cache state it receives is returned unchanged, the result and the
filesystem effect are independent of that state, and when the source
exists and the disk-cache file is present the command returns status
"cached". -/
theorem c2_orchestrator_probes_disk_only :
    ∀ (O : Oracles) (cacheDir : String) (mem mem2 : ThumbnailMemoryCache)
      (fs : FS) (p : String) (m : Nat),
      (generate_thumbnail O cacheDir mem fs p m).2.1 = mem ∧
      (generate_thumbnail O cacheDir mem fs p m).1 =
        (generate_thumbnail O cacheDir mem2 fs p m).1 ∧
      (generate_thumbnail O cacheDir mem fs p m).2.2 =
        (generate_thumbnail O cacheDir mem2 fs p m).2.2 ∧
      ((fs.files p).isSome = true →
        (fs.files (cachedPathOf cacheDir (cache_key p m))).isSome = true →
        (generate_thumbnail O cacheDir mem fs p m).1 =
          .ok ⟨cache_key p m, cachedPathOf cacheDir (cache_key p m),
            "cached"⟩) := by
  intro O cacheDir mem mem2 fs p m
  unfold generate_thumbnail
  cases hsrc : fs.files p with
  | none => exact ⟨rfl, rfl, rfl, fun hp _ => absurd hp (by simp)⟩
  | some src =>
    dsimp only
    cases hcache : fs.files (cachedPathOf cacheDir (cache_key p m)) with
    | some cb => exact ⟨rfl, rfl, rfl, fun _ _ => rfl⟩
    | none =>
      cases hdisp : dispatchDecode O fs p (extLower p) with
      | error e => exact ⟨rfl, rfl, rfl, fun _ hc => absurd hc (by simp)⟩
      | ok dataB => exact ⟨rfl, rfl, rfl, fun _ hc => absurd hc (by simp)⟩

set_option maxRecDepth 8000 in
/-- Witness for C2's amended statement: a filesystem with both the source
and the disk-cache file returns "cached" and leaves the populated memory
cache exactly as it was. -/
theorem c2_orchestrator_probes_disk_only_witness :
    (generate_thumbnail oracleOk "cache" c2mem fsCached "a.png" 5).2.1 =
      c2mem ∧
    (generate_thumbnail oracleOk "cache" c2mem fsCached "a.png" 5).1 =
      .ok ⟨cache_key "a.png" 5, cachedPathOf "cache" (cache_key "a.png" 5),
        "cached"⟩ := by
  have h := c2_orchestrator_probes_disk_only oracleOk "cache" c2mem
    (ThumbnailMemoryCache.new 20) fsCached "a.png" 5
  exact ⟨h.1, h.2.2.2 (by decide) (by decide)⟩

/-- C9: a request whose first run succeeds with status "generated" leaves
the rendition at the cache path; the identical request against the
resulting filesystem succeeds with the same key and cache path, reports
status "cached", and changes nothing, so the served cache file is
byte-identical between the calls. -/
theorem c9_round_trip_idempotent :
    ∀ (O : Oracles) (cacheDir : String) (mem : ThumbnailMemoryCache)
      (fs fs2 : FS) (p : String) (m : Nat) (r : ThumbnailResult),
      generate_thumbnail O cacheDir mem fs p m = (.ok r, mem, fs2) →
      r.status = "generated" →
      (∃ bs, fs2.files r.cache_path = some bs) ∧
      generate_thumbnail O cacheDir mem fs2 p m =
        (.ok ⟨r.cache_key, r.cache_path, "cached"⟩, mem, fs2) := by
  intro O cacheDir mem fs fs2 p m r h hst
  unfold generate_thumbnail at h
  cases hsrc : fs.files p with
  | none =>
    rw [hsrc] at h
    exact absurd (congrArg (fun t => t.1) h) (by simp)
  | some src =>
    rw [hsrc] at h
    dsimp only at h
    cases hcache : fs.files (cachedPathOf cacheDir (cache_key p m)) with
    | some cb =>
      rw [hcache] at h
      have hr : (⟨cache_key p m, cachedPathOf cacheDir (cache_key p m),
          "cached"⟩ : ThumbnailResult) = r := by
        have h1 := congrArg (fun t => t.1) h
        simp only at h1
        exact (Except.ok.injEq _ _).mp h1
      have : "cached" = "generated" := by
        rw [← hst, ← hr]
      exact absurd this (by decide)
    | none =>
      rw [hcache] at h
      cases hdisp : dispatchDecode O fs p (extLower p) with
      | error e =>
        rw [hdisp] at h
        exact absurd (congrArg (fun t => t.1) h) (by simp)
      | ok dataB =>
        rw [hdisp] at h
        dsimp only at h
        rw [Prod.mk.injEq, Prod.mk.injEq, Except.ok.injEq] at h
        obtain ⟨hr, -, hfs2⟩ := h
        subst hr
        subst hfs2
        have hne : p ≠ cachedPathOf cacheDir (cache_key p m) := by
          intro he
          rw [he, hcache] at hsrc
          exact absurd hsrc (by simp)
        have h1 : (fs.write (cachedPathOf cacheDir (cache_key p m))
            dataB).files p = some src := by
          show (if p = cachedPathOf cacheDir (cache_key p m) then some dataB
            else fs.files p) = some src
          rw [if_neg hne]
          exact hsrc
        have h2 : (fs.write (cachedPathOf cacheDir (cache_key p m))
            dataB).files (cachedPathOf cacheDir (cache_key p m)) =
            some dataB := by
          show (if cachedPathOf cacheDir (cache_key p m) =
            cachedPathOf cacheDir (cache_key p m) then some dataB
            else fs.files _) = some dataB
          rw [if_pos rfl]
        refine ⟨⟨dataB, h2⟩, ?_⟩
        unfold generate_thumbnail
        rw [h1]
        dsimp only
        rw [h2]

set_option maxRecDepth 8000 in
/-- Witness for C9: a concrete "generated" first run on `fsA`, then the
identical request against the written filesystem returns "cached" with
everything unchanged. -/
theorem c9_round_trip_idempotent_witness :
    (∃ bs, (generate_thumbnail oracleOk "cache"
        (ThumbnailMemoryCache.new 20) fsA "a.png" 5).2.2.files
        (cachedPathOf "cache" (cache_key "a.png" 5)) = some bs) ∧
    generate_thumbnail oracleOk "cache" (ThumbnailMemoryCache.new 20)
        ((generate_thumbnail oracleOk "cache" (ThumbnailMemoryCache.new 20)
          fsA "a.png" 5).2.2) "a.png" 5 =
      (.ok ⟨cache_key "a.png" 5, cachedPathOf "cache" (cache_key "a.png" 5),
        "cached"⟩, ThumbnailMemoryCache.new 20,
        (generate_thumbnail oracleOk "cache" (ThumbnailMemoryCache.new 20)
          fsA "a.png" 5).2.2) := by
  have h := c9_round_trip_idempotent oracleOk "cache"
    (ThumbnailMemoryCache.new 20) fsA
    ((generate_thumbnail oracleOk "cache" (ThumbnailMemoryCache.new 20)
      fsA "a.png" 5).2.2) "a.png" 5
    ⟨cache_key "a.png" 5, cachedPathOf "cache" (cache_key "a.png" 5),
      "generated"⟩ rfl rfl
  exact ⟨h.1, h.2⟩

/-! ### Shape of the MD5 digest and of `Nat.repr` -/

theorem md5Bytes_length (msg : List Nat) : (md5Bytes msg).length = 16 := by
  simp [md5Bytes, leBytes4]

theorem md5Bytes_lt (msg : List Nat) : ∀ b ∈ md5Bytes msg, b < 256 := by
  intro b hb
  simp only [md5Bytes, leBytes4, List.mem_append, List.mem_cons,
    List.not_mem_nil, or_false] at hb
  omega

theorem flatten_map_byteHex_length (bs : List Nat) :
    ((bs.map byteHex).flatten).length = 2 * bs.length := by
  induction bs with
  | nil => simp
  | cons b rest ih =>
    simp only [List.map_cons, List.flatten_cons, List.length_append, ih,
      List.length_cons, byteHex]
    simp
    omega

theorem md5hex_length (msg : List Nat) : (md5hex msg).length = 32 := by
  show (((md5Bytes msg).map byteHex).flatten).length = 32
  rw [flatten_map_byteHex_length, md5Bytes_length]

theorem digitChar_mem_hex (d : Nat) (hd : d < 16) :
    Nat.digitChar d ∈ hexDigitChars := by
  have h : ∀ x : Fin 16, Nat.digitChar x.val ∈ hexDigitChars := by decide
  exact h ⟨d, hd⟩

theorem md5hex_chars (msg : List Nat) :
    ∀ c ∈ (md5hex msg).data, c ∈ hexDigitChars := by
  intro c hc
  have hc2 : c ∈ ((md5Bytes msg).map byteHex).flatten := hc
  rw [List.mem_flatten] at hc2
  obtain ⟨l, hl, hcl⟩ := hc2
  rw [List.mem_map] at hl
  obtain ⟨b, hb, rfl⟩ := hl
  have hblt : b < 256 := md5Bytes_lt msg b hb
  simp only [byteHex, List.mem_cons, List.not_mem_nil, or_false] at hcl
  rcases hcl with rfl | rfl
  · exact digitChar_mem_hex _ (by omega)
  · exact digitChar_mem_hex _ (by omega)

/-- `Nat.toDigitsCore` with sufficient fuel produces the base-10 digits
(most significant first), with `0` rendered as "0". -/
theorem toDigitsCore_eq_digits (n : Nat) :
    ∀ (f : Nat) (ds : List Char), n < f →
      Nat.toDigitsCore 10 f n ds =
        (if n = 0 then ['0']
         else ((Nat.digits 10 n).map Nat.digitChar).reverse) ++ ds := by
  induction n using Nat.strong_induction_on with
  | _ n ih =>
    intro f ds hf
    cases f with
    | zero => omega
    | succ f =>
      rw [Nat.toDigitsCore]
      by_cases h0 : n / 10 = 0
      · rw [if_pos h0]
        by_cases hn : n = 0
        · subst hn
          rfl
        · rw [if_neg hn]
          have hd : Nat.digits 10 n = [n % 10] := by
            rw [Nat.digits_def' (by norm_num) (Nat.pos_of_ne_zero hn), h0,
              Nat.digits_zero]
          rw [hd]
          simp
      · rw [if_neg h0]
        have hn : n ≠ 0 := by
          intro e
          subst e
          simp at h0
        have hlt : n / 10 < n :=
          Nat.div_lt_self (Nat.pos_of_ne_zero hn) (by norm_num)
        rw [ih (n / 10) hlt f (Nat.digitChar (n % 10) :: ds) (by omega),
          if_neg h0, if_neg hn,
          Nat.digits_def' (b := 10) (by norm_num) (Nat.pos_of_ne_zero hn)]
        simp [List.append_assoc]

theorem repr_as_digits (n : Nat) :
    Nat.repr n =
      (if n = 0 then ['0']
       else ((Nat.digits 10 n).map Nat.digitChar).reverse).asString := by
  show (Nat.toDigits 10 n).asString = _
  rw [Nat.toDigits, toDigitsCore_eq_digits n (n + 1) [] (Nat.lt_succ_self n),
    List.append_nil]

theorem digitChar_inj_of_lt (a b : Nat) (ha : a < 16) (hb : b < 16)
    (h : Nat.digitChar a = Nat.digitChar b) : a = b := by
  have hfin : ∀ x y : Fin 16,
      Nat.digitChar x.val = Nat.digitChar y.val → x.val = y.val := by decide
  exact hfin ⟨a, ha⟩ ⟨b, hb⟩ h

theorem map_digitChar_inj (l1 l2 : List Nat) (h1 : ∀ x ∈ l1, x < 16)
    (h2 : ∀ x ∈ l2, x < 16)
    (h : l1.map Nat.digitChar = l2.map Nat.digitChar) : l1 = l2 := by
  induction l1 generalizing l2 with
  | nil =>
    cases l2 with
    | nil => rfl
    | cons b bs => exact absurd h (by simp)
  | cons a as ih =>
    cases l2 with
    | nil => exact absurd h (by simp)
    | cons b bs =>
      simp only [List.map_cons, List.cons.injEq] at h
      have ha := h1 a (List.mem_cons_self a as)
      have hb := h2 b (List.mem_cons_self b bs)
      rw [digitChar_inj_of_lt a b ha hb h.1,
        ih bs (fun x hx => h1 x (List.mem_cons_of_mem a hx))
          (fun x hx => h2 x (List.mem_cons_of_mem b hx)) h.2]

theorem digits_bounded (n : Nat) : ∀ d ∈ Nat.digits 10 n, d < 16 :=
  fun d hd => lt_trans (Nat.digits_lt_base (by norm_num) hd) (by norm_num)

/-- Decimal rendering of naturals is injective. -/
theorem nat_repr_inj (m n : Nat) (h : Nat.repr m = Nat.repr n) : m = n := by
  rw [repr_as_digits, repr_as_digits] at h
  have hl : (if m = 0 then ['0']
      else ((Nat.digits 10 m).map Nat.digitChar).reverse) =
      (if n = 0 then ['0']
      else ((Nat.digits 10 n).map Nat.digitChar).reverse) :=
    congrArg String.data h
  by_cases hm : m = 0 <;> by_cases hn : n = 0
  · omega
  · rw [if_pos hm, if_neg hn] at hl
    have hmap : (Nat.digits 10 n).map Nat.digitChar = ['0'] := by
      have := congrArg List.reverse hl
      simpa using this.symm
    cases hd : Nat.digits 10 n with
    | nil => rw [hd] at hmap; exact absurd hmap (by simp)
    | cons d rest =>
      rw [hd] at hmap
      simp only [List.map_cons, List.cons.injEq, List.map_eq_nil_iff] at hmap
      have hd16 : d < 16 := digits_bounded n d (by rw [hd]; simp)
      have hd0 : d = 0 :=
        digitChar_inj_of_lt d 0 hd16 (by norm_num) hmap.1
      have hofd := Nat.ofDigits_digits 10 n
      rw [hd, hmap.2, hd0] at hofd
      simp [Nat.ofDigits] at hofd
      omega
  · rw [if_neg hm, if_pos hn] at hl
    have hmap : (Nat.digits 10 m).map Nat.digitChar = ['0'] := by
      have := congrArg List.reverse hl
      simpa using this
    cases hd : Nat.digits 10 m with
    | nil => rw [hd] at hmap; exact absurd hmap (by simp)
    | cons d rest =>
      rw [hd] at hmap
      simp only [List.map_cons, List.cons.injEq, List.map_eq_nil_iff] at hmap
      have hd16 : d < 16 := digits_bounded m d (by rw [hd]; simp)
      have hd0 : d = 0 :=
        digitChar_inj_of_lt d 0 hd16 (by norm_num) hmap.1
      have hofd := Nat.ofDigits_digits 10 m
      rw [hd, hmap.2, hd0] at hofd
      simp [Nat.ofDigits] at hofd
      omega
  · rw [if_neg hm, if_neg hn] at hl
    have hmap := List.reverse_injective hl
    have hdig := map_digitChar_inj _ _ (digits_bounded m) (digits_bounded n)
      hmap
    have h1 := Nat.ofDigits_digits 10 m
    have h2 := Nat.ofDigits_digits 10 n
    rw [← h1, ← h2, hdig]

/-! ### Sensitivity of the cache-key pre-image -/

theorem cacheKeyInput_mtime_inj (p : String) (m1 m2 s : Nat)
    (h : cacheKeyInput p m1 s = cacheKeyInput p m2 s) : m1 = m2 := by
  unfold cacheKeyInput at h
  have hd := congrArg String.data h
  simp only [String.data_append, List.append_assoc] at hd
  have h1 := List.append_cancel_left hd
  simp only [List.cons_append, List.nil_append, List.cons.injEq, true_and]
    at h1
  have h2 := List.append_cancel_right h1
  exact nat_repr_inj m1 m2 (by ext1; exact h2)

theorem cacheKeyInput_size_inj (p : String) (m s1 s2 : Nat)
    (h : cacheKeyInput p m s1 = cacheKeyInput p m s2) : s1 = s2 := by
  unfold cacheKeyInput at h
  have hd := congrArg String.data h
  simp only [String.data_append, List.append_assoc] at hd
  have h1 := List.append_cancel_left hd
  simp only [List.cons_append, List.nil_append, List.cons.injEq, true_and]
    at h1
  have h2 := List.append_cancel_left h1
  simp only [List.cons.injEq, true_and] at h2
  have h3 := List.append_cancel_right h2
  exact nat_repr_inj s1 s2 (by ext1; exact h3)

/-- C4 is false as stated: the key derivation of thumbnail/mod.rs does
not read the render quality at all (the pre-image slot holds the literal
"png"), so two requests differing only in renderQuality always produce
the identical key. -/
theorem c4_quality_insensitive_counterexample :
    deriveKey "a.png" 5 480 98 = deriveKey "a.png" 5 480 1 ∧ (98 : Nat) ≠ 1 :=
  ⟨rfl, by decide⟩

/-- C4 (amended): the key deriver is a pure function of (sourcePath,
modifiedTimestamp, renderSize) — renderQuality is not an input; equal
inputs yield equal keys whatever the qualities; the key is a fixed-length
hexadecimal string (32 lowercase hex characters); and changing
modifiedTimestamp or renderSize while holding the other fields fixed
always changes the MD5 pre-image string. -/
theorem c4_cache_key_derivation :
    (∀ (p1 p2 : String) (m1 m2 s1 s2 q1 q2 : Nat),
      p1 = p2 → m1 = m2 → s1 = s2 →
      deriveKey p1 m1 s1 q1 = deriveKey p2 m2 s2 q2) ∧
    (∀ (p : String) (m s q : Nat),
      (deriveKey p m s q).length = 32 ∧
      ∀ c ∈ (deriveKey p m s q).data, c ∈ hexDigitChars) ∧
    (∀ (p : String) (m1 m2 s : Nat), m1 ≠ m2 →
      cacheKeyInput p m1 s ≠ cacheKeyInput p m2 s) ∧
    (∀ (p : String) (m s1 s2 : Nat), s1 ≠ s2 →
      cacheKeyInput p m s1 ≠ cacheKeyInput p m s2) := by
  refine ⟨?_, ?_, ?_, ?_⟩
  · intro p1 p2 m1 m2 s1 s2 q1 q2 hp hm hs
    rw [deriveKey, deriveKey, hp, hm, hs]
  · intro p m s q
    exact ⟨md5hex_length _, md5hex_chars _⟩
  · intro p m1 m2 s hne he
    exact hne (cacheKeyInput_mtime_inj p m1 m2 s he)
  · intro p m s1 s2 hne he
    exact hne (cacheKeyInput_size_inj p m s1 s2 he)

set_option maxRecDepth 4000 in
/-- Witness for C4's amended statement at concrete inputs. -/
theorem c4_cache_key_derivation_witness :
    deriveKey "a.png" 5 480 98 = deriveKey "a.png" 5 480 7 ∧
    (deriveKey "a.png" 5 480 98).length = 32 ∧
    cacheKeyInput "a.png" 5 480 ≠ cacheKeyInput "a.png" 6 480 ∧
    cacheKeyInput "a.png" 5 480 ≠ cacheKeyInput "a.png" 5 960 := by
  refine ⟨?_, ?_, ?_, ?_⟩
  · exact c4_cache_key_derivation.1 "a.png" "a.png" 5 5 480 480 98 7
      rfl rfl rfl
  · exact (c4_cache_key_derivation.2.1 "a.png" 5 480 98).1
  · exact c4_cache_key_derivation.2.2.1 "a.png" 5 6 480 (by decide)
  · exact c4_cache_key_derivation.2.2.2 "a.png" 5 480 960 (by decide)

/-! ### Error-message shapes: no supported decode path can produce the
unsupported-format message -/

theorem take2_append (a x : String) (h : 2 ≤ a.data.length) :
    (a ++ x).data.take 2 = a.data.take 2 := by
  rw [String.data_append]
  exact List.take_append_of_le_length h

theorem two_le_append (a x : String) (h : 2 ≤ a.data.length) :
    2 ≤ (a ++ x).data.length := by
  rw [String.data_append, List.length_append]
  omega

theorem unsup_msg_take2 (ext : String) :
    ("サポートされていないファイル形式: " ++ ext).data.take 2 = ['サ', 'ポ'] := by
  rw [take2_append _ _ (by decide)]
  decide

theorem error_ne_of_take2 {α : Type} (e1 e2 : String)
    (h : e1.data.take 2 ≠ e2.data.take 2) :
    (Except.error e1 : Except String α) ≠ .error e2 := by
  intro he
  rw [Except.error.injEq] at he
  exact h (by rw [he])

theorem validate_error_take2 (w h : Nat) (e : String)
    (he : validate_dimensions w h = .error e) :
    e.data.take 2 = ['無', '効'] ∨ e.data.take 2 = ['画', '像'] ∨
      e.data.take 2 = ['ピ', 'ク'] := by
  unfold validate_dimensions at he
  split_ifs at he with h1 h2 h3
  · rw [Except.error.injEq] at he
    subst he
    left
    decide
  · rw [Except.error.injEq] at he
    subst he
    right
    left
    have l1 : 2 ≤ ("画像サイズが大きすぎます: " : String).data.length := by decide
    have l2 := two_le_append _ (Nat.repr w) l1
    have l3 := two_le_append _ "x" l2
    have l4 := two_le_append _ (Nat.repr h) l3
    have l5 := two_le_append _ " (最大: " l4
    have l6 := two_le_append _ (Nat.repr MAX_IMAGE_DIMENSION) l5
    rw [take2_append _ _ l6, take2_append _ _ l5, take2_append _ _ l4,
      take2_append _ _ l3, take2_append _ _ l2, take2_append _ _ l1]
    decide
  · rw [Except.error.injEq] at he
    subst he
    right
    right
    have l1 : 2 ≤ ("ピクセル数が多すぎます: " : String).data.length := by decide
    have l2 := two_le_append _ (Nat.repr (w * h)) l1
    have l3 := two_le_append _ " (最大: " l2
    have l4 := two_le_append _ (Nat.repr MAX_PIXEL_COUNT) l3
    rw [take2_append _ _ l4, take2_append _ _ l3, take2_append _ _ l2,
      take2_append _ _ l1]
    decide

theorem create_thumbnail_error_take2 (O : Oracles) (img : Img) (e : String)
    (h : create_thumbnail O img = .error e) : e.data.take 2 = ['サ', 'ム'] := by
  unfold create_thumbnail at h
  dsimp only at h
  cases henc : O.encodePng (O.resizeFit img THUMBNAIL_SIZE
      (THUMBNAIL_SIZE * 14 / 10)) with
  | ok buf => rw [henc] at h; exact absurd h (by simp)
  | error e0 =>
    rw [henc] at h
    rw [Except.error.injEq] at h
    subst h
    rw [take2_append _ _ (by decide)]
    decide

theorem psdComposite_error_take2 (O : Oracles) (data : List Nat) (e : String)
    (h : psdComposite O data = .error e) :
    e.data.take 2 = ['P', 'S'] ∨ e.data.take 2 = ['無', '効'] ∨
      e.data.take 2 = ['画', '像'] ∨ e.data.take 2 = ['ピ', 'ク'] ∨
      e.data.take 2 = ['サ', 'ム'] := by
  unfold psdComposite at h
  cases hp : O.psdParse data with
  | error e0 =>
    rw [hp] at h
    rw [Except.error.injEq] at h
    subst h
    left
    rw [take2_append _ _ (by decide)]
    decide
  | ok img =>
    rw [hp] at h
    dsimp only at h
    cases hv : validate_dimensions img.width img.height with
    | error ev =>
      rw [hv] at h
      rw [Except.error.injEq] at h
      subst h
      rcases validate_error_take2 _ _ _ hv with h1 | h1 | h1
      · exact Or.inr (Or.inl h1)
      · exact Or.inr (Or.inr (Or.inl h1))
      · exact Or.inr (Or.inr (Or.inr (Or.inl h1)))
    | ok u =>
      rw [hv] at h
      dsimp only at h
      by_cases hr : O.rgbaOk img = true
      · rw [if_pos hr] at h
        exact Or.inr (Or.inr (Or.inr (Or.inr
          (create_thumbnail_error_take2 O img e h))))
      · rw [if_neg hr] at h
        rw [Except.error.injEq] at h
        subst h
        right
        right
        left
        decide

theorem psdThumb_error_take2 (O : Oracles) (data : List Nat) (e : String)
    (h : psdThumbFromData O data = .error e) :
    e.data.take 2 = ['P', 'S'] ∨ e.data.take 2 = ['無', '効'] ∨
      e.data.take 2 = ['画', '像'] ∨ e.data.take 2 = ['ピ', 'ク'] ∨
      e.data.take 2 = ['サ', 'ム'] := by
  unfold psdThumbFromData at h
  cases hx : extract_psd_embedded_thumbnail data with
  | none =>
    rw [hx] at h
    exact psdComposite_error_take2 O data e h
  | some jpeg =>
    rw [hx] at h
    dsimp only at h
    cases hd : O.decodeJpeg jpeg with
    | error e0 =>
      rw [hd] at h
      exact psdComposite_error_take2 O data e h
    | ok img =>
      rw [hd] at h
      dsimp only at h
      by_cases hs : THUMBNAIL_SIZE ≤ img.width ∨ THUMBNAIL_SIZE ≤ img.height
      · rw [if_pos hs] at h
        exact Or.inr (Or.inr (Or.inr (Or.inr
          (create_thumbnail_error_take2 O img e h))))
      · rw [if_neg hs] at h
        exact psdComposite_error_take2 O data e h

theorem generate_psd_thumbnail_error_take2 (O : Oracles) (fs : FS)
    (p : String) (e : String) (h : generate_psd_thumbnail O fs p = .error e) :
    e.data.take 2 = ['N', 'o'] ∨ e.data.take 2 = ['P', 'S'] ∨
      e.data.take 2 = ['無', '効'] ∨ e.data.take 2 = ['画', '像'] ∨
      e.data.take 2 = ['ピ', 'ク'] ∨ e.data.take 2 = ['サ', 'ム'] := by
  unfold generate_psd_thumbnail at h
  cases hf : fs.files p with
  | none =>
    rw [hf] at h
    rw [Except.error.injEq] at h
    subst h
    left
    decide
  | some data =>
    rw [hf] at h
    exact Or.inr (psdThumb_error_take2 O data e h)

theorem generate_image_thumbnail_error_take2 (O : Oracles) (fs : FS)
    (p : String) (e : String)
    (h : generate_image_thumbnail O fs p = .error e) :
    e.data.take 2 = ['画', '像'] ∨ e.data.take 2 = ['サ', 'ム'] := by
  unfold generate_image_thumbnail at h
  dsimp only at h
  cases hf : fs.files p with
  | none =>
    rw [hf] at h
    dsimp only at h
    rw [Except.error.injEq] at h
    subst h
    left
    rw [take2_append _ _ (by decide)]
    decide
  | some bytes =>
    rw [hf] at h
    dsimp only at h
    cases hd : O.decodeRaster bytes with
    | error e0 =>
      rw [hd] at h
      rw [Except.error.injEq] at h
      subst h
      left
      rw [take2_append _ _ (by decide)]
      decide
    | ok img =>
      rw [hd] at h
      exact Or.inr (create_thumbnail_error_take2 O img e h)

/-! ### Extension dispatch (C10) -/

theorem decoderFor_unsupported_iff (e : String) :
    decoderFor e = .unsupported ↔ e ∉ SUPPORTED_EXTENSIONS := by
  unfold decoderFor
  split <;> simp_all [SUPPORTED_EXTENSIONS]

theorem dispatch_eq_decoderFor (O : Oracles) (fs : FS) (path ext : String) :
    dispatchDecode O fs path ext =
      match decoderFor ext with
      | .psd => generate_psd_thumbnail O fs path
      | .raster => generate_image_thumbnail O fs path
      | .unsupported => .error ("サポートされていないファイル形式: " ++ ext) := by
  unfold dispatchDecode decoderFor
  split <;> rfl

/-- The dispatch returns the unsupported-format error exactly when the
lowercased extension is outside the supported set: no supported decode
path can produce a message with that prefix. -/
theorem dispatch_unsupported_iff (O : Oracles) (fs : FS) (path ext : String) :
    dispatchDecode O fs path ext =
        .error ("サポートされていないファイル形式: " ++ ext) ↔
      ext ∉ SUPPORTED_EXTENSIONS := by
  rw [dispatch_eq_decoderFor, ← decoderFor_unsupported_iff]
  constructor
  · intro h
    cases hd : decoderFor ext with
    | unsupported => rfl
    | psd =>
      rw [hd] at h
      exfalso
      rcases generate_psd_thumbnail_error_take2 O fs path _ h
        with h1 | h1 | h1 | h1 | h1 | h1 <;>
        (rw [unsup_msg_take2] at h1; exact absurd h1 (by decide))
    | raster =>
      rw [hd] at h
      exfalso
      rcases generate_image_thumbnail_error_take2 O fs path _ h
        with h1 | h1 <;>
        (rw [unsup_msg_take2] at h1; exact absurd h1 (by decide))
  · intro h
    rw [h]

/-- C10: extension dispatch is case-insensitive — the match runs on the
lowercased extension, so paths whose extensions agree up to letter case
select the same decoder (e.g. "x.PSD", "x.Jpg", "x.TIFF" behave as their
lowercase forms) — and `generate_thumbnail` returns the
unsupported-format error exactly when the source exists, the disk cache
misses, and the lowercased extension (empty for a path with no extension)
is outside {psd, tif, tiff, jpg, jpeg, png}. -/
theorem c10_extension_dispatch :
    (∀ p1 p2 : String,
      (extChars p1).map Char.toLower = (extChars p2).map Char.toLower →
      decoderFor (extLower p1) = decoderFor (extLower p2)) ∧
    (decoderFor (extLower "x.PSD") = .psd ∧
     decoderFor (extLower "x.Jpg") = .raster ∧
     decoderFor (extLower "x.TIFF") = .raster ∧
     decoderFor (extLower "x.psd") = .psd ∧
     extLower "x" = "" ∧ decoderFor (extLower "x") = .unsupported) ∧
    (∀ e : String, decoderFor e = .unsupported ↔
      e ∉ SUPPORTED_EXTENSIONS) ∧
    (∀ (O : Oracles) (cacheDir : String) (mem : ThumbnailMemoryCache)
      (fs : FS) (p : String) (m : Nat),
      (generate_thumbnail O cacheDir mem fs p m).1 =
          .error ("サポートされていないファイル形式: " ++ extLower p) ↔
        ((fs.files p).isSome = true ∧
         (fs.files (cachedPathOf cacheDir (cache_key p m))).isSome = false ∧
         extLower p ∉ SUPPORTED_EXTENSIONS)) := by
  refine ⟨?_, ⟨by decide, by decide, by decide, by decide, by decide,
    by decide⟩, decoderFor_unsupported_iff, ?_⟩
  · intro p1 p2 h
    show decoderFor (String.mk ((extChars p1).map Char.toLower)) =
      decoderFor (String.mk ((extChars p2).map Char.toLower))
    rw [h]
  · intro O cacheDir mem fs p m
    unfold generate_thumbnail
    cases hsrc : fs.files p with
    | none =>
      refine iff_of_false ?_ ?_
      · show (Except.error "ファイルが存在しません" :
            Except String ThumbnailResult) ≠ _
        exact error_ne_of_take2 _ _ (by rw [unsup_msg_take2]; decide)
      · rintro ⟨h1, -, -⟩
        exact absurd h1 (by simp)
    | some src =>
      dsimp only
      cases hcache : fs.files (cachedPathOf cacheDir (cache_key p m)) with
      | some cb =>
        refine iff_of_false ?_ ?_
        · exact fun he => Except.noConfusion he
        · rintro ⟨-, h2, -⟩
          exact absurd h2 (by simp)
      | none =>
        have hiff := dispatch_unsupported_iff O fs p (extLower p)
        cases hdisp : dispatchDecode O fs p (extLower p) with
        | error e =>
          rw [hdisp] at hiff
          simpa using hiff
        | ok dataB =>
          rw [hdisp] at hiff
          refine iff_of_false ?_ ?_
          · exact fun he => Except.noConfusion he
          · rintro ⟨-, -, h3⟩
            exact absurd (hiff.mpr h3) (by simp)

set_option maxRecDepth 8000 in
/-- Witness for C10 at a filesystem holding "a.xyz": the request reaches
dispatch and fails with the unsupported-format error for the lowercased
extension "xyz". -/
theorem c10_extension_dispatch_witness :
    decoderFor (extLower "x.PSD") = decoderFor (extLower "x.psd") ∧
    ((generate_thumbnail oracleOk "cache"
        (ThumbnailMemoryCache.new 20)
        ⟨fun q => if q = "a.xyz" then some [1] else none⟩ "a.xyz" 5).1 =
      .error ("サポートされていないファイル形式: " ++ extLower "a.xyz")) := by
  constructor
  · exact c10_extension_dispatch.1 "x.PSD" "x.psd" (by decide)
  · exact (c10_extension_dispatch.2.2.2 oracleOk "cache"
      (ThumbnailMemoryCache.new 20)
      ⟨fun q => if q = "a.xyz" then some [1] else none⟩ "a.xyz" 5).mpr
      ⟨by decide, by decide, by decide⟩

end Daidori
